import Mathlib

/-!
# A leaky-bucket rate limiter (`rl.go`, package `ratelimitx`)

A shallow embedding of `LimiterConfig`, `Limiter`, `New`, `Limiter.limit` and
`Limiter.Limit`, followed by theorems about them.

Modelling conventions.

* `time.Duration` and `int64` are integers (`Int`); every arithmetic operation of
  the source on them is followed by an explicit two's-complement wrap-around
  into `[-2^63, 2^63)` (`wrap64`), as Go defines signed overflow.
* `time.Time` is an instant on the monotonic clock, a nanosecond count in `Int`;
  the clock itself is not bounded.  `time.Since` is the saturating difference of
  two instants (`Time.Sub` saturates at the largest and smallest `Duration`).
* The mutex of `Limiter` serialises the calls of `limit`; a call is one
  application of the transition function to the current state and to the
  clock reading of that call.
* `panic` is the `Except.error` result, carrying the value passed to `panic`.
-/

namespace Ratelimitx

/-! ## Durations -/

/-- Smallest `time.Duration`, `-1 << 63`. -/
def minDuration : Int := -(2 ^ 63)

/-- Largest `time.Duration`, `1<<63 - 1`. -/
def maxDuration : Int := 2 ^ 63 - 1

/-- Membership in the range of `int64`. -/
def IsInt64 (x : Int) : Prop := minDuration ≤ x ∧ x ≤ maxDuration

instance (x : Int) : Decidable (IsInt64 x) := by
  unfold IsInt64; infer_instance

/-- Two's-complement wrap-around of an integer into the range of `int64`. -/
def wrap64 (x : Int) : Int := (x + 2 ^ 63) % 2 ^ 64 - 2 ^ 63

/-- Go's unary `-` on `int64`. -/
def dneg (a : Int) : Int := wrap64 (-a)

/-- Go's `+` on `int64`. -/
def dadd (a b : Int) : Int := wrap64 (a + b)

/-- Go's binary `-` on `int64`. -/
def dsub (a b : Int) : Int := wrap64 (a - b)

/-- Go's `*` on `int64`. -/
def dmul (a b : Int) : Int := wrap64 (a * b)

/-! ## Data model -/

/-- The package's only error value, `ErrBackoff`. -/
inductive Error where
  | ErrBackoff
  deriving DecidableEq, Repr

/-- `LimiterConfig`: the three configuration fields. -/
structure LimiterConfig where
  BurstLimit : Int
  FillPeriod : Int
  MaxWaitCount : Int
  deriving DecidableEq, Repr

/-- `Limiter` without its lock: three constants and the two mutable fields. -/
structure Limiter where
  fillPeriod : Int
  minWaitTime : Int
  maxWaitTime : Int
  waitTime : Int
  lastRequest : Int
  deriving DecidableEq, Repr

/-- `New`, with the reading of `time.Now()` as the argument `now`. -/
def New (conf : LimiterConfig) (now : Int) : Except Int Limiter :=
  if conf.BurstLimit < 0 then
    Except.error conf.BurstLimit
  else if conf.FillPeriod ≤ 0 then
    Except.error conf.FillPeriod
  else if conf.MaxWaitCount < 0 then
    Except.error conf.MaxWaitCount
  else
    Except.ok
      { fillPeriod := conf.FillPeriod
        waitTime := dmul (dneg conf.FillPeriod) conf.BurstLimit
        minWaitTime := dmul (dneg conf.FillPeriod) conf.BurstLimit
        maxWaitTime := dmul conf.FillPeriod (dsub conf.MaxWaitCount 1)
        lastRequest := now }

/-- What one call of `limit` leaves behind: the limiter after the call and the
two returned values. -/
structure LimitResult where
  state : Limiter
  wait : Int
  err : Option Error
  deriving DecidableEq, Repr

/-- `Limiter.limit`, with the value of `time.Since(lim.lastRequest)` as the
argument `dt`. -/
def limit (lim : Limiter) (dt : Int) : LimitResult :=
  let waitTime := dsub lim.waitTime dt
  let candidate : Option Int :=
    if waitTime < lim.minWaitTime then
      some lim.minWaitTime
    else if waitTime ≥ lim.maxWaitTime then
      none
    else
      some waitTime
  match candidate with
  | none => { state := lim, wait := 0, err := some Error.ErrBackoff }
  | some waitTime =>
    let lim' : Limiter :=
      { lim with
        waitTime := dadd waitTime lim.fillPeriod
        lastRequest := lim.lastRequest + dt }
    { state := lim', wait := lim'.waitTime, err := none }

/-- `time.Since(t)` read at the instant `now`: the difference of the two
instants, saturated to the range of `time.Duration`. -/
def since (t now : Int) : Int :=
  if now - t > maxDuration then maxDuration
  else if now - t < minDuration then minDuration
  else now - t

/-- `Limiter.limit` called at the instant `now`. -/
def limitAt (lim : Limiter) (now : Int) : LimitResult :=
  limit lim (since lim.lastRequest now)

/-- The time `time.Sleep(d)` blocks: nothing for `d ≤ 0`. -/
def sleepTime (d : Int) : Int := if d ≤ 0 then 0 else d

/-- What one call of `Limit` does: the limiter after the call, the duration
handed to `time.Sleep`, and the returned error. -/
structure LimitOutcome where
  state : Limiter
  slept : Int
  err : Option Error
  deriving DecidableEq, Repr

/-- `Limiter.Limit`, with the value of `time.Since(lim.lastRequest)` as `dt`;
`slept` is the argument of `time.Sleep`. -/
def Limit (lim : Limiter) (dt : Int) : LimitOutcome :=
  let r := limit lim dt
  { state := r.state, slept := r.wait, err := r.err }

/-- The limiter after a series of calls of `limit`, given the clock reading
`time.Since(lim.lastRequest)` of each call in order. -/
def run (lim : Limiter) : List Int → Limiter
  | [] => lim
  | dt :: dts => run (limit lim dt).state dts

/-- The release instants handed out by a series of calls of `limit` made at
the instants `nows`, in the order in which the callers hold the lock: for each
admitted call, the committed `lastRequest` plus the returned wait. -/
def releases (lim : Limiter) : List Int → List Int
  | [] => []
  | now :: nows =>
    let r := limitAt lim now
    match r.err with
    | none => (r.state.lastRequest + r.wait) :: releases r.state nows
    | some _ => releases r.state nows

/-- A configuration of `int64` fields whose derived bounds are computed without
overflow: `FillPeriod * (BurstLimit + MaxWaitCount) ≤ 2^63`. -/
def Representable (conf : LimiterConfig) : Prop :=
  IsInt64 conf.BurstLimit ∧ IsInt64 conf.FillPeriod ∧ IsInt64 conf.MaxWaitCount ∧
  conf.FillPeriod * (conf.BurstLimit + conf.MaxWaitCount) ≤ 2 ^ 63

instance (conf : LimiterConfig) : Decidable (Representable conf) := by
  unfold Representable; infer_instance

/-- A clock reading that `time.Since` can return on a monotonic clock. -/
def IsElapsed (dt : Int) : Prop := 0 ≤ dt ∧ dt ≤ maxDuration

instance (dt : Int) : Decidable (IsElapsed dt) := by
  unfold IsElapsed; infer_instance

/-- The invariant of a limiter built from a representable configuration: the
constants are those of some `FillPeriod > 0`, `BurstLimit ≥ 0`,
`MaxWaitCount ≥ 0` without overflow, and `waitTime` lies between `minWaitTime`
and the largest value a commit can store. -/
def Inv (s : Limiter) : Prop :=
  0 < s.fillPeriod ∧ s.fillPeriod ≤ maxDuration ∧ s.minWaitTime ≤ 0 ∧
  -s.fillPeriod ≤ s.maxWaitTime ∧
  s.maxWaitTime + s.fillPeriod - s.minWaitTime ≤ 2 ^ 63 ∧
  s.minWaitTime ≤ s.waitTime ∧
  (s.waitTime ≤ s.minWaitTime + s.fillPeriod ∨
    s.waitTime < s.maxWaitTime + s.fillPeriod)

/-! ## Basic facts about the arithmetic -/

theorem wrap64_of_isInt64 {x : Int} (h : IsInt64 x) : wrap64 x = x := by
  unfold IsInt64 minDuration maxDuration at h
  unfold wrap64
  have h1 : (x + 2 ^ 63) % 2 ^ 64 = x + 2 ^ 63 := by
    apply Int.emod_eq_of_lt <;> omega
  omega

theorem wrap64_isInt64 (x : Int) : IsInt64 (wrap64 x) := by
  unfold IsInt64 minDuration maxDuration wrap64
  have h1 : 0 ≤ (x + 2 ^ 63) % 2 ^ 64 := Int.emod_nonneg _ (by norm_num)
  have h2 : (x + 2 ^ 63) % 2 ^ 64 < 2 ^ 64 := Int.emod_lt_of_pos _ (by norm_num)
  constructor <;> omega

/-! ## The three outcomes of `limit` -/

theorem limit_clamped {lim : Limiter} {dt : Int}
    (h : dsub lim.waitTime dt < lim.minWaitTime) :
    limit lim dt =
      { state := { lim with
                   waitTime := dadd lim.minWaitTime lim.fillPeriod
                   lastRequest := lim.lastRequest + dt }
        wait := dadd lim.minWaitTime lim.fillPeriod
        err := none } := by
  simp [limit, h]

theorem limit_rejected {lim : Limiter} {dt : Int}
    (h1 : ¬ dsub lim.waitTime dt < lim.minWaitTime)
    (h2 : dsub lim.waitTime dt ≥ lim.maxWaitTime) :
    limit lim dt = { state := lim, wait := 0, err := some Error.ErrBackoff } := by
  simp [limit, h1, h2]

theorem limit_queued {lim : Limiter} {dt : Int}
    (h1 : ¬ dsub lim.waitTime dt < lim.minWaitTime)
    (h2 : ¬ dsub lim.waitTime dt ≥ lim.maxWaitTime) :
    limit lim dt =
      { state := { lim with
                   waitTime := dadd (dsub lim.waitTime dt) lim.fillPeriod
                   lastRequest := lim.lastRequest + dt }
        wait := dadd (dsub lim.waitTime dt) lim.fillPeriod
        err := none } := by
  have h2' : ¬ lim.maxWaitTime ≤ dsub lim.waitTime dt := h2
  simp [limit, h1, h2']

theorem limit_consts (s : Limiter) (d : Int) :
    (limit s d).state.fillPeriod = s.fillPeriod ∧
    (limit s d).state.minWaitTime = s.minWaitTime ∧
    (limit s d).state.maxWaitTime = s.maxWaitTime := by
  by_cases h1 : dsub s.waitTime d < s.minWaitTime
  · rw [limit_clamped h1]; exact ⟨rfl, rfl, rfl⟩
  · by_cases h2 : dsub s.waitTime d ≥ s.maxWaitTime
    · rw [limit_rejected h1 h2]; exact ⟨rfl, rfl, rfl⟩
    · rw [limit_queued h1 h2]; exact ⟨rfl, rfl, rfl⟩

/-! ## Single calls -/

/-- C1: a call of `limit` that returns `ErrBackoff` leaves the limiter exactly
as it was (all five fields), so any following call, whether described by its
elapsed time or by its instant, gives the same result and the same limiter as
if the rejected call had not been made. -/
theorem limit_reject_no_mutation (lim : Limiter) (dt : Int)
    (h : (limit lim dt).err = some Error.ErrBackoff) :
    (limit lim dt).state = lim ∧
    (∀ dt2 : Int, limit (limit lim dt).state dt2 = limit lim dt2) ∧
    (∀ now : Int, limitAt (limit lim dt).state now = limitAt lim now) := by
  have hs : (limit lim dt).state = lim := by
    by_cases h1 : dsub lim.waitTime dt < lim.minWaitTime
    · rw [limit_clamped h1] at h; simp at h
    · by_cases h2 : dsub lim.waitTime dt ≥ lim.maxWaitTime
      · rw [limit_rejected h1 h2]
      · rw [limit_queued h1 h2] at h; simp at h
  refine ⟨hs, ?_, ?_⟩
  · intro dt2; rw [hs]
  · intro now; rw [hs]

/-- Witness for C1: a limiter with `maxWaitTime = 0` and no credit rejects a
call made with no elapsed time. -/
theorem limit_reject_no_mutation_witness :
    (limit ⟨10, 0, 0, 0, 0⟩ 0).err = some Error.ErrBackoff ∧
    (limit ⟨10, 0, 0, 0, 0⟩ 0).state = ⟨10, 0, 0, 0, 0⟩ :=
  ⟨by decide, (limit_reject_no_mutation ⟨10, 0, 0, 0, 0⟩ 0 (by decide)).1⟩

/-- The commit of an admitted call, in `time.Duration` arithmetic. -/
theorem limit_commit_of_admitted {lim : Limiter} {dt : Int}
    (h : (limit lim dt).err = none) :
    (limit lim dt).state.waitTime
        = dadd (max (dsub lim.waitTime dt) lim.minWaitTime) lim.fillPeriod ∧
    (limit lim dt).state.lastRequest = lim.lastRequest + dt ∧
    (limit lim dt).wait = (limit lim dt).state.waitTime := by
  by_cases h1 : dsub lim.waitTime dt < lim.minWaitTime
  · rw [limit_clamped h1]
    simp [max_eq_right (le_of_lt h1)]
  · by_cases h2 : dsub lim.waitTime dt ≥ lim.maxWaitTime
    · rw [limit_rejected h1 h2] at h; simp at h
    · rw [limit_queued h1 h2]
      simp [max_eq_left (not_lt.mp h1)]

/-- C2: an admitted call commits `waitTime = candidate + fillPeriod`, where
`candidate = max (waitTime - dt) minWaitTime`, advances `lastRequest` by `dt`,
returns the committed `waitTime`, and leaves `fillPeriod`, `minWaitTime` and
`maxWaitTime` alone.  The subtraction and the addition are those of
`time.Duration`; whenever their exact results are `int64` values, the committed
`waitTime` is the exact integer `max (waitTime - dt) minWaitTime + fillPeriod`. -/
theorem limit_admit_commit (lim : Limiter) (dt : Int)
    (h : (limit lim dt).err = none) :
    (limit lim dt).state.waitTime
        = dadd (max (dsub lim.waitTime dt) lim.minWaitTime) lim.fillPeriod ∧
    (limit lim dt).state.lastRequest = lim.lastRequest + dt ∧
    (limit lim dt).wait = (limit lim dt).state.waitTime ∧
    (limit lim dt).state.fillPeriod = lim.fillPeriod ∧
    (limit lim dt).state.minWaitTime = lim.minWaitTime ∧
    (limit lim dt).state.maxWaitTime = lim.maxWaitTime ∧
    (IsInt64 (lim.waitTime - dt) →
      IsInt64 (max (lim.waitTime - dt) lim.minWaitTime + lim.fillPeriod) →
      (limit lim dt).state.waitTime
        = max (lim.waitTime - dt) lim.minWaitTime + lim.fillPeriod) := by
  obtain ⟨k1, k2, k3⟩ := limit_commit_of_admitted h
  obtain ⟨k4, k5, k6⟩ := limit_consts lim dt
  refine ⟨k1, k2, k3, k4, k5, k6, ?_⟩
  intro hsub hadd
  rw [k1]
  unfold dadd dsub
  rw [wrap64_of_isInt64 hsub, wrap64_of_isInt64 hadd]

/-- Witness for C2: with 5ns elapsed, a debt of 20ns shrinks to 15ns and the
call commits and returns 25ns. -/
theorem limit_admit_commit_witness :
    (limit ⟨10, -10, 30, 20, 100⟩ 5).err = none ∧
    (limit ⟨10, -10, 30, 20, 100⟩ 5).state.waitTime = 25 ∧
    (limit ⟨10, -10, 30, 20, 100⟩ 5).state.lastRequest = 105 ∧
    (limit ⟨10, -10, 30, 20, 100⟩ 5).wait = 25 :=
  have h := limit_admit_commit ⟨10, -10, 30, 20, 100⟩ 5 (by decide)
  ⟨by decide, (h.2.2.2.2.2.2 (by decide) (by decide)).trans (by decide),
    h.2.1.trans (by decide), (h.2.2.1).trans (by decide)⟩

/-- Counterexample to C3: on the limiter built from `BurstLimit = 0`,
`FillPeriod = 10`, `MaxWaitCount = 1` (so `minWaitTime = maxWaitTime = 0`), a
call after 1ns has the clamped candidate `max (0 - 1) 0 = 0 ≥ maxWaitTime`, and
is admitted all the same. -/
theorem limit_reject_iff_clamped_counterexample :
    New ⟨0, 10, 1⟩ 0 = Except.ok ⟨10, 0, 0, 0, 0⟩ ∧
    (limit ⟨10, 0, 0, 0, 0⟩ 1).err = none ∧
    ¬ ((limit ⟨10, 0, 0, 0, 0⟩ 1).err = some Error.ErrBackoff ↔
        max ((⟨10, 0, 0, 0, 0⟩ : Limiter).waitTime - 1)
            (⟨10, 0, 0, 0, 0⟩ : Limiter).minWaitTime
          ≥ (⟨10, 0, 0, 0, 0⟩ : Limiter).maxWaitTime) :=
  ⟨rfl, by decide, by decide⟩

/-- C3, amended: `limit` rejects exactly when the candidate `waitTime - dt`
(a `time.Duration` subtraction) is not below `minWaitTime` and is
`≥ maxWaitTime`; a candidate that was clamped is admitted without the check.
For a limiter with `minWaitTime < maxWaitTime` this is the same as
`max (waitTime - dt) minWaitTime ≥ maxWaitTime`; a candidate equal to
`maxWaitTime` is rejected. -/
theorem limit_reject_iff (lim : Limiter) (dt : Int) :
    ((limit lim dt).err = some Error.ErrBackoff ↔
      (lim.minWaitTime ≤ dsub lim.waitTime dt ∧
        max (dsub lim.waitTime dt) lim.minWaitTime ≥ lim.maxWaitTime)) ∧
    (lim.minWaitTime < lim.maxWaitTime →
      ((limit lim dt).err = some Error.ErrBackoff ↔
        max (dsub lim.waitTime dt) lim.minWaitTime ≥ lim.maxWaitTime)) ∧
    (lim.minWaitTime ≤ lim.maxWaitTime → dsub lim.waitTime dt = lim.maxWaitTime →
      (limit lim dt).err = some Error.ErrBackoff) := by
  by_cases h1 : dsub lim.waitTime dt < lim.minWaitTime
  · rw [limit_clamped h1]
    simp only [max_eq_right (le_of_lt h1)]
    refine ⟨?_, ?_, ?_⟩
    · constructor
      · intro h; simp at h
      · intro h; omega
    · intro hlt
      constructor
      · intro h; simp at h
      · intro h; omega
    · intro hle heq; omega
  · by_cases h2 : dsub lim.waitTime dt ≥ lim.maxWaitTime
    · rw [limit_rejected h1 h2]
      simp only [max_eq_left (not_lt.mp h1)]
      refine ⟨?_, ?_, ?_⟩
      · exact ⟨fun _ => ⟨not_lt.mp h1, h2⟩, fun _ => trivial⟩
      · intro _; exact ⟨fun _ => h2, fun _ => trivial⟩
      · intro _ _; trivial
    · rw [limit_queued h1 h2]
      simp only [max_eq_left (not_lt.mp h1)]
      refine ⟨?_, ?_, ?_⟩
      · constructor
        · intro h; simp at h
        · intro h; exact absurd h.2 h2
      · intro _
        constructor
        · intro h; simp at h
        · intro h; exact absurd h h2
      · intro _ heq; omega

/-! ## Limiters built by `New` and series of calls -/

theorem New_ok {conf : LimiterConfig} {now : Int} {lim : Limiter}
    (h : New conf now = Except.ok lim) :
    0 ≤ conf.BurstLimit ∧ 0 < conf.FillPeriod ∧ 0 ≤ conf.MaxWaitCount ∧
    lim = { fillPeriod := conf.FillPeriod
            waitTime := dmul (dneg conf.FillPeriod) conf.BurstLimit
            minWaitTime := dmul (dneg conf.FillPeriod) conf.BurstLimit
            maxWaitTime := dmul conf.FillPeriod (dsub conf.MaxWaitCount 1)
            lastRequest := now } := by
  unfold New at h
  split_ifs at h with h1 h2 h3
  injection h with h
  exact ⟨by omega, by omega, by omega, h.symm⟩

theorem New_exact {conf : LimiterConfig} {now : Int} {lim : Limiter}
    (h : New conf now = Except.ok lim) (hR : Representable conf) :
    lim.fillPeriod = conf.FillPeriod ∧
    lim.minWaitTime = -(conf.FillPeriod * conf.BurstLimit) ∧
    lim.maxWaitTime = conf.FillPeriod * conf.MaxWaitCount - conf.FillPeriod ∧
    lim.waitTime = -(conf.FillPeriod * conf.BurstLimit) ∧
    lim.lastRequest = now ∧
    0 ≤ conf.FillPeriod * conf.BurstLimit ∧
    0 ≤ conf.FillPeriod * conf.MaxWaitCount ∧
    conf.FillPeriod * conf.BurstLimit + conf.FillPeriod * conf.MaxWaitCount ≤ 2 ^ 63 := by
  obtain ⟨hB, hF, hM, rfl⟩ := New_ok h
  obtain ⟨rB, rF, rM, rS⟩ := hR
  unfold IsInt64 minDuration maxDuration at rB rF rM
  have hFB : 0 ≤ conf.FillPeriod * conf.BurstLimit := mul_nonneg (le_of_lt hF) hB
  have hFM : 0 ≤ conf.FillPeriod * conf.MaxWaitCount := mul_nonneg (le_of_lt hF) hM
  rw [mul_add] at rS
  have e1 : dneg conf.FillPeriod = -conf.FillPeriod := by
    unfold dneg wrap64; omega
  have e2 : dsub conf.MaxWaitCount 1 = conf.MaxWaitCount - 1 := by
    unfold dsub wrap64; omega
  have e3 : -conf.FillPeriod * conf.BurstLimit = -(conf.FillPeriod * conf.BurstLimit) := by
    ring
  have e4 : conf.FillPeriod * (conf.MaxWaitCount - 1)
      = conf.FillPeriod * conf.MaxWaitCount - conf.FillPeriod := by ring
  have e5 : dmul (dneg conf.FillPeriod) conf.BurstLimit
      = -(conf.FillPeriod * conf.BurstLimit) := by
    rw [e1]; unfold dmul; rw [e3]; unfold wrap64; omega
  have e6 : dmul conf.FillPeriod (dsub conf.MaxWaitCount 1)
      = conf.FillPeriod * conf.MaxWaitCount - conf.FillPeriod := by
    rw [e2]; unfold dmul; rw [e4]; unfold wrap64; omega
  exact ⟨rfl, e5, e6, e5, rfl, hFB, hFM, rS⟩

theorem New_inv {conf : LimiterConfig} {now : Int} {lim : Limiter}
    (h : New conf now = Except.ok lim) (hR : Representable conf) : Inv lim := by
  obtain ⟨e1, e2, e3, e4, _, hFB, hFM, hS⟩ := New_exact h hR
  obtain ⟨_, hF, _, _⟩ := New_ok h
  obtain ⟨_, rF, _, _⟩ := hR
  unfold IsInt64 minDuration maxDuration at rF
  unfold Inv maxDuration
  rw [e1, e2, e3, e4]
  refine ⟨hF, rF.2, by omega, by omega, by omega, by omega, by omega⟩

/-- One call on a limiter satisfying the invariant, in exact arithmetic: either
the call is rejected and nothing changes, or it is admitted, no operation
overflowed, and the commit is `max (waitTime - dt) minWaitTime + fillPeriod`. -/
theorem limit_of_inv {s : Limiter} {dt : Int} (hI : Inv s) (hdt : IsElapsed dt) :
    ((limit s dt).err = some Error.ErrBackoff ∧ (limit s dt).state = s) ∨
    ((limit s dt).err = none ∧
      (limit s dt).wait = max (s.waitTime - dt) s.minWaitTime + s.fillPeriod ∧
      (limit s dt).state =
        { s with
          waitTime := max (s.waitTime - dt) s.minWaitTime + s.fillPeriod
          lastRequest := s.lastRequest + dt } ∧
      (s.waitTime - dt < s.minWaitTime ∨ s.waitTime - dt < s.maxWaitTime)) := by
  obtain ⟨i1, i2, i3, i4, i5, i6, i7⟩ := hI
  obtain ⟨d1, d2⟩ := hdt
  unfold maxDuration at i2 d2
  by_cases h1 : dsub s.waitTime dt < s.minWaitTime
  · right
    rw [limit_clamped h1]
    have hlt : s.waitTime - dt < s.minWaitTime := by
      unfold dsub wrap64 at h1; omega
    have hadd : dadd s.minWaitTime s.fillPeriod = s.minWaitTime + s.fillPeriod := by
      unfold dadd wrap64; omega
    rw [hadd, max_eq_right (le_of_lt hlt)]
    exact ⟨rfl, rfl, rfl, Or.inl hlt⟩
  · by_cases h2 : dsub s.waitTime dt ≥ s.maxWaitTime
    · left
      rw [limit_rejected h1 h2]
      exact ⟨rfl, rfl⟩
    · right
      rw [limit_queued h1 h2]
      have hsub : dsub s.waitTime dt = s.waitTime - dt := by
        unfold dsub wrap64 at h1 h2 ⊢; omega
      rw [hsub] at h1 h2 ⊢
      have hadd : dadd (s.waitTime - dt) s.fillPeriod = s.waitTime - dt + s.fillPeriod := by
        unfold dadd wrap64; omega
      rw [hadd, max_eq_left (not_lt.mp h1)]
      exact ⟨rfl, rfl, rfl, Or.inr (by omega)⟩

theorem limit_inv {s : Limiter} {dt : Int} (hI : Inv s) (hdt : IsElapsed dt) :
    Inv (limit s dt).state := by
  rcases limit_of_inv hI hdt with ⟨_, hs⟩ | ⟨_, _, hs, hc⟩
  · rw [hs]; exact hI
  · rw [hs]
    obtain ⟨i1, i2, i3, i4, i5, i6, i7⟩ := hI
    unfold Inv
    refine ⟨i1, i2, i3, i4, i5, ?_, ?_⟩
    · show s.minWaitTime ≤ max (s.waitTime - dt) s.minWaitTime + s.fillPeriod
      have := le_max_right (s.waitTime - dt) s.minWaitTime
      omega
    · show max (s.waitTime - dt) s.minWaitTime + s.fillPeriod ≤ s.minWaitTime + s.fillPeriod ∨
        max (s.waitTime - dt) s.minWaitTime + s.fillPeriod < s.maxWaitTime + s.fillPeriod
      rcases hc with hc | hc
      · left; rw [max_eq_right (le_of_lt hc)]
      · rcases le_total (s.waitTime - dt) s.minWaitTime with h | h
        · left; rw [max_eq_right h]
        · right; rw [max_eq_left h]; omega

theorem run_inv {s : Limiter} {dts : List Int} (hI : Inv s)
    (hdts : ∀ d ∈ dts, IsElapsed d) : Inv (run s dts) := by
  induction dts generalizing s with
  | nil => exact hI
  | cons d ds ih =>
    simp only [run]
    exact ih (limit_inv hI (hdts d (List.mem_cons_self d ds)))
      (fun x hx => hdts x (List.mem_cons_of_mem d hx))

theorem run_consts (s : Limiter) (dts : List Int) :
    (run s dts).fillPeriod = s.fillPeriod ∧
    (run s dts).minWaitTime = s.minWaitTime ∧
    (run s dts).maxWaitTime = s.maxWaitTime := by
  induction dts generalizing s with
  | nil => exact ⟨rfl, rfl, rfl⟩
  | cons d ds ih =>
    simp only [run]
    obtain ⟨a, b, c⟩ := ih (limit s d).state
    have hk := limit_consts s d
    exact ⟨a.trans hk.1, b.trans hk.2.1, c.trans hk.2.2⟩

/-- C4: evaluation at the failing input.  On the limiter built from
`BurstLimit = 0`, `FillPeriod = 10`, `MaxWaitCount = 2` (`maxWaitTime = 10`), a
first call with no elapsed time followed by a call 1ns later: the second call
is admitted and `Limit` hands 19 to `time.Sleep`, more than `maxWaitTime`. -/
theorem Limit_sleeps_beyond_maxWaitTime :
    New ⟨0, 10, 2⟩ 0 = Except.ok ⟨10, 0, 10, 0, 0⟩ ∧
    (run ⟨10, 0, 10, 0, 0⟩ [0]).maxWaitTime = 10 ∧
    (Limit (run ⟨10, 0, 10, 0, 0⟩ [0]) 1).err = none ∧
    (Limit (run ⟨10, 0, 10, 0, 0⟩ [0]) 1).slept = 19 ∧
    (limit (run ⟨10, 0, 10, 0, 0⟩ [0]) 1).wait = 19 :=
  ⟨rfl, by decide, by decide, by decide, by decide⟩

/-- Counterexample to C5.  On the limiter built from `BurstLimit = 0`,
`FillPeriod = 10`, `MaxWaitCount = 2`, the first call (no elapsed time) is
admitted and stores `waitTime = 10 = maxWaitTime`, not below `maxWaitTime`.
And with `FillPeriod = 2^62 + 1` the commit of a second call 1ns later
overflows: the stored `waitTime` is `-2^63 + 1`, below `minWaitTime = 0`. -/
theorem waitTime_range_counterexample :
    (New ⟨0, 10, 2⟩ 0 = Except.ok ⟨10, 0, 10, 0, 0⟩ ∧
      (limit ⟨10, 0, 10, 0, 0⟩ 0).err = none ∧
      ¬ ((limit ⟨10, 0, 10, 0, 0⟩ 0).state.minWaitTime
            ≤ (limit ⟨10, 0, 10, 0, 0⟩ 0).state.waitTime ∧
          (limit ⟨10, 0, 10, 0, 0⟩ 0).state.waitTime
            < (limit ⟨10, 0, 10, 0, 0⟩ 0).state.maxWaitTime)) ∧
    (New ⟨0, 2 ^ 62 + 1, 2⟩ 0 = Except.ok ⟨2 ^ 62 + 1, 0, 2 ^ 62 + 1, 0, 0⟩ ∧
      (limit (run ⟨2 ^ 62 + 1, 0, 2 ^ 62 + 1, 0, 0⟩ [0]) 1).err = none ∧
      (limit (run ⟨2 ^ 62 + 1, 0, 2 ^ 62 + 1, 0, 0⟩ [0]) 1).state.waitTime = -(2 ^ 63) + 1 ∧
      (limit (run ⟨2 ^ 62 + 1, 0, 2 ^ 62 + 1, 0, 0⟩ [0]) 1).state.minWaitTime = 0) :=
  ⟨⟨rfl, by decide, by decide⟩, ⟨rfl, by decide, by decide, by decide⟩⟩

/-- C5, amended: on a limiter built by `New` from a representable configuration
(`int64` fields, `FillPeriod * (BurstLimit + MaxWaitCount) ≤ 2^63`), after any
series of calls with elapsed times in `[0, maxDuration]`, an admitted call stores
a `waitTime` with `minWaitTime + fillPeriod ≤ waitTime` (so
`minWaitTime < waitTime`), and either `waitTime = minWaitTime + fillPeriod` (the
candidate was clamped) or `waitTime < maxWaitTime + fillPeriod`, where
`maxWaitTime + fillPeriod = FillPeriod * MaxWaitCount`. -/
theorem waitTime_after_admission (conf : LimiterConfig) (now : Int) (lim0 : Limiter)
    (dts : List Int) (dt : Int)
    (hNew : New conf now = Except.ok lim0) (hR : Representable conf)
    (hdts : ∀ d ∈ dts, IsElapsed d) (hdt : IsElapsed dt)
    (hadm : (limit (run lim0 dts) dt).err = none) :
    (limit (run lim0 dts) dt).state.minWaitTime = lim0.minWaitTime ∧
    (limit (run lim0 dts) dt).state.maxWaitTime = lim0.maxWaitTime ∧
    lim0.maxWaitTime + lim0.fillPeriod = conf.FillPeriod * conf.MaxWaitCount ∧
    lim0.minWaitTime + lim0.fillPeriod ≤ (limit (run lim0 dts) dt).state.waitTime ∧
    lim0.minWaitTime < (limit (run lim0 dts) dt).state.waitTime ∧
    ((limit (run lim0 dts) dt).state.waitTime = lim0.minWaitTime + lim0.fillPeriod ∨
      (limit (run lim0 dts) dt).state.waitTime < lim0.maxWaitTime + lim0.fillPeriod) := by
  have hI0 : Inv lim0 := New_inv hNew hR
  have hI : Inv (run lim0 dts) := run_inv hI0 hdts
  obtain ⟨c1, c2, c3⟩ := run_consts lim0 dts
  obtain ⟨k1, k2, k3⟩ := limit_consts (run lim0 dts) dt
  obtain ⟨e1, _, e3, _⟩ := New_exact hNew hR
  have hF : 0 < lim0.fillPeriod := hI0.1
  rcases limit_of_inv hI hdt with ⟨hrej, _⟩ | ⟨_, _, hs, hc⟩
  · rw [hrej] at hadm; simp at hadm
  · have hw : (limit (run lim0 dts) dt).state.waitTime
        = max ((run lim0 dts).waitTime - dt) lim0.minWaitTime + lim0.fillPeriod := by
      rw [hs, c1, c2]
    refine ⟨k2.trans c2, k3.trans c3, by rw [e1, e3]; ring, ?_, ?_, ?_⟩
    · rw [hw]
      have := le_max_right ((run lim0 dts).waitTime - dt) lim0.minWaitTime
      omega
    · rw [hw]
      have := le_max_right ((run lim0 dts).waitTime - dt) lim0.minWaitTime
      omega
    · rw [hw]
      rcases le_total ((run lim0 dts).waitTime - dt) lim0.minWaitTime with h | h
      · left; rw [max_eq_right h]
      · right
        rw [max_eq_left h]
        rcases hc with hc | hc
        · rw [c2] at hc; omega
        · rw [c3] at hc; omega

/-- Witness for C5: `BurstLimit = 0`, `FillPeriod = 10`, `MaxWaitCount = 2`, a
first call with no elapsed time and a second call 1ns later, which stores 19. -/
theorem waitTime_after_admission_witness :
    (limit (run ⟨10, 0, 10, 0, 0⟩ [0]) 1).err = none ∧
    (0 : Int) + 10 ≤ (limit (run ⟨10, 0, 10, 0, 0⟩ [0]) 1).state.waitTime :=
  ⟨by decide,
    (waitTime_after_admission ⟨0, 10, 2⟩ 0 ⟨10, 0, 10, 0, 0⟩ [0] 1 rfl (by decide)
      (by decide) (by decide) (by decide)).2.2.2.1⟩

/-! ## Release instants under serialised calls -/

theorem since_elapsed {t now : Int} (h : t ≤ now) :
    IsElapsed (since t now) ∧ t + since t now ≤ now := by
  unfold IsElapsed since maxDuration minDuration
  split_ifs <;> constructor <;> omega

theorem releases_cons_admitted {s : Limiter} {now : Int} {nows : List Int}
    (h : (limitAt s now).err = none) :
    releases s (now :: nows) =
      ((limitAt s now).state.lastRequest + (limitAt s now).wait)
        :: releases (limitAt s now).state nows := by
  simp [releases, h]

theorem releases_cons_reject {s : Limiter} {now : Int} {nows : List Int}
    (h : (limitAt s now).err = some Error.ErrBackoff) :
    releases s (now :: nows) = releases (limitAt s now).state nows := by
  simp [releases, h]

/-- Every release instant handed out from a state satisfying the invariant lies
at least one `fillPeriod` after the release instant stored in the state, and
the release instants are pairwise at least one `fillPeriod` apart. -/
theorem releases_after {s : Limiter} {nows : List Int} (hI : Inv s)
    (hmono : List.Chain (fun a b => a ≤ b) s.lastRequest nows) :
    (∀ x ∈ releases s nows, s.lastRequest + s.waitTime + s.fillPeriod ≤ x) ∧
    List.Pairwise (fun a b => a + s.fillPeriod ≤ b) (releases s nows) := by
  induction nows generalizing s with
  | nil => simp [releases]
  | cons now rest ih =>
    obtain ⟨hle, hrest⟩ := List.chain_cons.mp hmono
    obtain ⟨hel, hadv⟩ := since_elapsed hle
    have hF : 0 < s.fillPeriod := hI.1
    rcases limit_of_inv hI hel with ⟨herr, hs⟩ | ⟨herr, hwait, hs, _⟩
    · have herr2 : (limitAt s now).err = some Error.ErrBackoff := herr
      have hs2 : (limitAt s now).state = s := hs
      rw [releases_cons_reject herr2, hs2]
      have hch : List.Chain (fun a b => a ≤ b) s.lastRequest rest := by
        cases rest with
        | nil => exact List.Chain.nil
        | cons y ys =>
          obtain ⟨hy, hys⟩ := List.chain_cons.mp hrest
          exact List.chain_cons.mpr ⟨le_trans hle hy, hys⟩
      exact ih hI hch
    · have herr2 : (limitAt s now).err = none := herr
      have hI2 : Inv (limitAt s now).state := limit_inv hI hel
      have hlast : (limitAt s now).state.lastRequest = s.lastRequest + since s.lastRequest now := by
        show (limit s (since s.lastRequest now)).state.lastRequest = _
        rw [hs]
      have hwt : (limitAt s now).state.waitTime
          = max (s.waitTime - since s.lastRequest now) s.minWaitTime + s.fillPeriod := by
        show (limit s (since s.lastRequest now)).state.waitTime = _
        rw [hs]
      have hfill : (limitAt s now).state.fillPeriod = s.fillPeriod :=
        (limit_consts s (since s.lastRequest now)).1
      have hwait2 : (limitAt s now).wait = (limitAt s now).state.waitTime := by
        rw [hwt]; exact hwait
      have hch : List.Chain (fun a b => a ≤ b) (limitAt s now).state.lastRequest rest := by
        rw [hlast]
        cases rest with
        | nil => exact List.Chain.nil
        | cons y ys =>
          obtain ⟨hy, hys⟩ := List.chain_cons.mp hrest
          exact List.chain_cons.mpr ⟨le_trans hadv hy, hys⟩
      obtain ⟨ih1, ih2⟩ := ih hI2 hch
      rw [hfill] at ih1 ih2
      have hmax := le_max_left (s.waitTime - since s.lastRequest now) s.minWaitTime
      rw [releases_cons_admitted herr2, hwait2]
      constructor
      · intro x hx
        rcases List.mem_cons.mp hx with hx | hx
        · rw [hx, hlast, hwt]; omega
        · have := ih1 x hx
          rw [hlast, hwt] at this
          omega
      · refine List.pairwise_cons.mpr ⟨?_, ih2⟩
        intro x hx
        exact ih1 x hx

/-- Counterexample to C6: `BurstLimit = 1`, `FillPeriod = D = 2^62 + 1`,
`MaxWaitCount = 2`, three calls at the instants 0, 0 and 1.  All three are
admitted; the third commit `(D - 1) + D` overflows, and its release instant
`-2^63 + 2` lies before the two earlier ones, `0` and `D`. -/
theorem releases_spaced_counterexample :
    New ⟨1, 2 ^ 62 + 1, 2⟩ 0
      = Except.ok ⟨2 ^ 62 + 1, -(2 ^ 62 + 1), 2 ^ 62 + 1, -(2 ^ 62 + 1), 0⟩ ∧
    releases ⟨2 ^ 62 + 1, -(2 ^ 62 + 1), 2 ^ 62 + 1, -(2 ^ 62 + 1), 0⟩ [0, 0, 1]
      = [0, 2 ^ 62 + 1, -(2 ^ 63) + 2] ∧
    ¬ List.Pairwise (fun a b : Int => a + (2 ^ 62 + 1) ≤ b)
        (releases ⟨2 ^ 62 + 1, -(2 ^ 62 + 1), 2 ^ 62 + 1, -(2 ^ 62 + 1), 0⟩ [0, 0, 1]) := by
  have h : releases ⟨2 ^ 62 + 1, -(2 ^ 62 + 1), 2 ^ 62 + 1, -(2 ^ 62 + 1), 0⟩ [0, 0, 1]
      = [0, 2 ^ 62 + 1, -(2 ^ 63) + 2] := by decide
  refine ⟨rfl, h, ?_⟩
  rw [h]
  decide

/-- C6, amended: on a limiter built by `New` with `BurstLimit = 1`,
`FillPeriod = D` and a `MaxWaitCount` such that the configuration is
representable (`int64` fields, `D * (1 + MaxWaitCount) ≤ 2^63`), for every
series of calls at non-decreasing instants from the instant of `New` on, the
release instants of the admitted calls (committed `lastRequest` plus returned
wait, which is the instant of the call plus the returned wait as long as the
elapsed time fits a `time.Duration`), in the order of the calls, are pairwise at
least `D` apart: each one is at least `D` later than every earlier one.  None
of them lies before the instant of `New`. -/
theorem releases_spaced (conf : LimiterConfig) (now : Int) (lim0 : Limiter)
    (nows : List Int)
    (hNew : New conf now = Except.ok lim0) (hB : conf.BurstLimit = 1)
    (hR : Representable conf)
    (hmono : List.Chain (fun a b => a ≤ b) now nows) :
    List.Pairwise (fun a b => a + conf.FillPeriod ≤ b) (releases lim0 nows) ∧
    (∀ x ∈ releases lim0 nows, now ≤ x) := by
  obtain ⟨e1, _, _, e4, e5, _⟩ := New_exact hNew hR
  have hI : Inv lim0 := New_inv hNew hR
  rw [← e5] at hmono
  obtain ⟨h1, h2⟩ := releases_after hI hmono
  rw [e1] at h2
  refine ⟨h2, ?_⟩
  intro x hx
  have := h1 x hx
  rw [e1, e4, e5, hB] at this
  omega

/-- Witness for C6: `D = 10`, `MaxWaitCount = 3`, calls at the instants
0, 0, 3, 3 and 40. -/
theorem releases_spaced_witness :
    List.Pairwise (fun a b : Int => a + 10 ≤ b)
      (releases ⟨10, -10, 20, -10, 0⟩ [0, 0, 3, 3, 40]) :=
  (releases_spaced ⟨1, 10, 3⟩ 0 ⟨10, -10, 20, -10, 0⟩ [0, 0, 3, 3, 40] (by rfl) rfl
    (by decide) (by simp)).1

/-! ## Bursts and steady state -/

theorem run_append (s : Limiter) (l1 l2 : List Int) :
    run s (l1 ++ l2) = run (run s l1) l2 := by
  induction l1 generalizing s with
  | nil => rfl
  | cons d ds ih => simp only [List.cons_append, run]; exact ih _

theorem run_snoc (s : Limiter) (l : List Int) (d : Int) :
    run s (l ++ [d]) = (limit (run s l) d).state := by
  rw [run_append]; rfl

theorem limit_admits_of_inv {s : Limiter} {dt : Int} (hI : Inv s) (hdt : IsElapsed dt)
    (hlo : minDuration ≤ s.waitTime - dt)
    (hc : s.waitTime - dt < s.minWaitTime ∨ s.waitTime - dt < s.maxWaitTime) :
    (limit s dt).err = none := by
  obtain ⟨i1, i2, i3, i4, i5, i6, i7⟩ := hI
  obtain ⟨d1, d2⟩ := hdt
  unfold maxDuration at i2 d2
  unfold minDuration at hlo
  by_cases h1 : dsub s.waitTime dt < s.minWaitTime
  · rw [limit_clamped h1]
  · by_cases h2 : dsub s.waitTime dt ≥ s.maxWaitTime
    · exfalso
      unfold dsub wrap64 at h1 h2
      omega
    · rw [limit_queued h1 h2]

theorem isElapsed_zero : IsElapsed 0 := by decide

/-- The accumulator after `k ≤ BurstLimit` back-to-back calls. -/
theorem burst_waitTime {conf : LimiterConfig} {now : Int} {lim0 : Limiter}
    (hNew : New conf now = Except.ok lim0) (hR : Representable conf)
    (hM : 1 ≤ conf.MaxWaitCount) (k : Nat) (hk : (k : Int) ≤ conf.BurstLimit) :
    (run lim0 (List.replicate k 0)).waitTime
      = -(conf.FillPeriod * conf.BurstLimit) + conf.FillPeriod * k := by
  obtain ⟨e1, e2, e3, e4, _, hFB, hFM, hS⟩ := New_exact hNew hR
  obtain ⟨_, hF, _, _⟩ := New_ok hNew
  induction k with
  | zero => simp [run, e4]
  | succ k ih =>
    have hk2 : (k : Int) + 1 ≤ conf.BurstLimit := by push_cast at hk; exact hk
    have ihk := ih (by omega)
    rw [List.replicate_succ', run_snoc]
    have hI : Inv (run lim0 (List.replicate k 0)) :=
      run_inv (New_inv hNew hR)
        (fun d hd => by rw [List.eq_of_mem_replicate hd]; exact isElapsed_zero)
    obtain ⟨c1, c2, c3⟩ := run_consts lim0 (List.replicate k 0)
    have hmul : conf.FillPeriod * ((k : Int) + 1) ≤ conf.FillPeriod * conf.BurstLimit :=
      mul_le_mul_of_nonneg_left hk2 (le_of_lt hF)
    have hmulM : conf.FillPeriod * 1 ≤ conf.FillPeriod * conf.MaxWaitCount :=
      mul_le_mul_of_nonneg_left hM (le_of_lt hF)
    have hk0 : 0 ≤ conf.FillPeriod * (k : Int) :=
      mul_nonneg (le_of_lt hF) (Int.ofNat_nonneg k)
    rw [mul_add, mul_one] at hmul
    rw [mul_one] at hmulM
    have hmin := hI.2.2.2.2.2.1
    rw [c2, e2] at hmin
    have hadm : (limit (run lim0 (List.replicate k 0)) 0).err = none := by
      apply limit_admits_of_inv hI isElapsed_zero
      · rw [ihk]; unfold minDuration; omega
      · right; rw [ihk, c3, e3]; omega
    rcases limit_of_inv hI isElapsed_zero with ⟨hrej, _⟩ | ⟨_, _, hs, _⟩
    · rw [hrej] at hadm; simp at hadm
    · rw [hs]
      show max ((run lim0 (List.replicate k 0)).waitTime - 0)
          (run lim0 (List.replicate k 0)).minWaitTime
          + (run lim0 (List.replicate k 0)).fillPeriod = _
      rw [ihk, c1, c2, e1, e2, sub_zero, max_eq_left (by omega)]
      push_cast
      ring

/-- Counterexample to C7.  With `BurstLimit = 1`, `FillPeriod = 10`,
`MaxWaitCount = 0` the limiter has `minWaitTime = maxWaitTime = -10`, and the
first call, made with no elapsed time, is rejected.  With `FillPeriod = 2^62`,
`MaxWaitCount = 3` the product `FillPeriod * 2` overflows to
`maxWaitTime = -2^63`, and the first call is rejected as well. -/
theorem burst_admission_counterexample :
    (New ⟨1, 10, 0⟩ 0 = Except.ok ⟨10, -10, -10, -10, 0⟩ ∧
      (limit ⟨10, -10, -10, -10, 0⟩ 0).err = some Error.ErrBackoff) ∧
    (New ⟨1, 2 ^ 62, 3⟩ 0 = Except.ok ⟨2 ^ 62, -(2 ^ 62), -(2 ^ 63), -(2 ^ 62), 0⟩ ∧
      (limit ⟨2 ^ 62, -(2 ^ 62), -(2 ^ 63), -(2 ^ 62), 0⟩ 0).err
        = some Error.ErrBackoff) :=
  ⟨⟨by rfl, by decide⟩, ⟨by rfl, by decide⟩⟩

/-- C7, amended: for every representable configuration (`int64` fields,
`FillPeriod * (BurstLimit + MaxWaitCount) ≤ 2^63`) accepted by `New` with
`MaxWaitCount ≥ 1` and `BurstLimit = N`, the first `N` calls made with zero
elapsed time are all admitted with a returned wait `≤ 0`, and the `(N+1)`-th
such call is rejected or returns a wait `> 0`. -/
theorem burst_admission (conf : LimiterConfig) (now : Int) (lim0 : Limiter)
    (hNew : New conf now = Except.ok lim0) (hR : Representable conf)
    (hM : 1 ≤ conf.MaxWaitCount) :
    (∀ k : Nat, (k : Int) < conf.BurstLimit →
      (limit (run lim0 (List.replicate k 0)) 0).err = none ∧
      (limit (run lim0 (List.replicate k 0)) 0).wait ≤ 0) ∧
    ((limit (run lim0 (List.replicate conf.BurstLimit.toNat 0)) 0).err
        = some Error.ErrBackoff ∨
      (limit (run lim0 (List.replicate conf.BurstLimit.toNat 0)) 0).wait > 0) := by
  obtain ⟨e1, e2, e3, e4, _, hFB, hFM, hS⟩ := New_exact hNew hR
  obtain ⟨hB, hF, _, _⟩ := New_ok hNew
  have hIk : ∀ k : Nat, Inv (run lim0 (List.replicate k 0)) := fun k =>
    run_inv (New_inv hNew hR)
      (fun d hd => by rw [List.eq_of_mem_replicate hd]; exact isElapsed_zero)
  constructor
  · intro k hk
    have hw := burst_waitTime hNew hR hM k (le_of_lt hk)
    have hw1 := burst_waitTime hNew hR hM (k + 1) (by push_cast; omega)
    rw [List.replicate_succ', run_snoc] at hw1
    obtain ⟨c1, c2, c3⟩ := run_consts lim0 (List.replicate k 0)
    have hmul : conf.FillPeriod * ((k : Int) + 1) ≤ conf.FillPeriod * conf.BurstLimit :=
      mul_le_mul_of_nonneg_left (by omega) (le_of_lt hF)
    have hmulM : conf.FillPeriod * 1 ≤ conf.FillPeriod * conf.MaxWaitCount :=
      mul_le_mul_of_nonneg_left hM (le_of_lt hF)
    have hk0 : 0 ≤ conf.FillPeriod * (k : Int) :=
      mul_nonneg (le_of_lt hF) (Int.ofNat_nonneg k)
    rw [mul_add, mul_one] at hmul
    rw [mul_one] at hmulM
    have hadm : (limit (run lim0 (List.replicate k 0)) 0).err = none := by
      apply limit_admits_of_inv (hIk k) isElapsed_zero
      · rw [hw]; unfold minDuration; omega
      · right; rw [hw, c3, e3]; omega
    refine ⟨hadm, ?_⟩
    have hwait := (limit_commit_of_admitted hadm).2.2
    rw [hwait, hw1]
    push_cast
    rw [mul_add, mul_one]
    omega
  · have hcast : ((conf.BurstLimit.toNat : Nat) : Int) = conf.BurstLimit :=
      Int.toNat_of_nonneg hB
    have hw := burst_waitTime hNew hR hM conf.BurstLimit.toNat (le_of_eq hcast)
    rw [hcast] at hw
    obtain ⟨c1, c2, c3⟩ := run_consts lim0 (List.replicate conf.BurstLimit.toNat 0)
    rcases limit_of_inv (hIk conf.BurstLimit.toNat) isElapsed_zero with
      ⟨hrej, _⟩ | ⟨_, hwait, _, _⟩
    · exact Or.inl hrej
    · right
      rw [hwait, hw, c1, c2, e1, e2]
      have : -(conf.FillPeriod * conf.BurstLimit) + conf.FillPeriod * conf.BurstLimit - 0
          = 0 := by ring
      rw [this, max_eq_left (by omega)]
      omega

/-- Witness for C7: `BurstLimit = 2`, `FillPeriod = 10`, `MaxWaitCount = 3`;
the second of the back-to-back calls is admitted. -/
theorem burst_admission_witness :
    (limit (run ⟨10, -20, 20, -20, 0⟩ (List.replicate 1 0)) 0).err = none ∧
    (limit (run ⟨10, -20, 20, -20, 0⟩ (List.replicate 1 0)) 0).wait ≤ 0 :=
  (burst_admission ⟨2, 10, 3⟩ 0 ⟨10, -20, 20, -20, 0⟩ (by rfl) (by decide)
    (by decide)).1 1 (by decide)

/-- The accumulator is back at zero after the burst and after every further
call arriving one `fillPeriod` after the previous one. -/
theorem steady_waitTime {conf : LimiterConfig} {now : Int} {lim0 : Limiter}
    (hNew : New conf now = Except.ok lim0) (hR : Representable conf)
    (hB : 1 ≤ conf.BurstLimit) (hM : 1 ≤ conf.MaxWaitCount) (k : Nat) :
    Inv (run lim0 (List.replicate conf.BurstLimit.toNat 0
          ++ List.replicate k conf.FillPeriod)) ∧
    (run lim0 (List.replicate conf.BurstLimit.toNat 0
          ++ List.replicate k conf.FillPeriod)).waitTime = 0 ∧
    (limit (run lim0 (List.replicate conf.BurstLimit.toNat 0
          ++ List.replicate k conf.FillPeriod)) conf.FillPeriod).err = none ∧
    (limit (run lim0 (List.replicate conf.BurstLimit.toNat 0
          ++ List.replicate k conf.FillPeriod)) conf.FillPeriod).wait = 0 ∧
    (limit (run lim0 (List.replicate conf.BurstLimit.toNat 0
          ++ List.replicate k conf.FillPeriod)) conf.FillPeriod).state.waitTime = 0 := by
  obtain ⟨e1, e2, e3, e4, _, hFB, hFM, hS⟩ := New_exact hNew hR
  obtain ⟨hB0, hF, _, _⟩ := New_ok hNew
  have hFel : IsElapsed conf.FillPeriod := by
    have := hR.2.1
    unfold IsInt64 at this
    exact ⟨le_of_lt hF, this.2⟩
  have hmulB : conf.FillPeriod * 1 ≤ conf.FillPeriod * conf.BurstLimit :=
    mul_le_mul_of_nonneg_left hB (le_of_lt hF)
  have hmulM : conf.FillPeriod * 1 ≤ conf.FillPeriod * conf.MaxWaitCount :=
    mul_le_mul_of_nonneg_left hM (le_of_lt hF)
  rw [mul_one] at hmulB hmulM
  have step : ∀ s : Limiter, Inv s → s.fillPeriod = lim0.fillPeriod →
      s.minWaitTime = lim0.minWaitTime → s.maxWaitTime = lim0.maxWaitTime →
      s.waitTime = 0 →
      (limit s conf.FillPeriod).err = none ∧ (limit s conf.FillPeriod).wait = 0 ∧
      (limit s conf.FillPeriod).state.waitTime = 0 := by
    intro s hI c1 c2 c3 hw
    have hadm : (limit s conf.FillPeriod).err = none := by
      apply limit_admits_of_inv hI hFel
      · rw [hw]; unfold minDuration; have := hFel.2; unfold maxDuration at this; omega
      · right; rw [hw, c3, e3]; omega
    rcases limit_of_inv hI hFel with ⟨hrej, _⟩ | ⟨_, hwait, hs, _⟩
    · rw [hrej] at hadm; simp at hadm
    · have hval : max (s.waitTime - conf.FillPeriod) s.minWaitTime + s.fillPeriod = 0 := by
        rw [hw, c1, c2, e1, e2, max_eq_left (by omega)]; omega
      refine ⟨hadm, by rw [hwait, hval], ?_⟩
      rw [hs]
      exact hval
  induction k with
  | zero =>
    simp only [List.replicate_zero, List.append_nil]
    have hcast : ((conf.BurstLimit.toNat : Nat) : Int) = conf.BurstLimit :=
      Int.toNat_of_nonneg hB0
    have hw := burst_waitTime hNew hR hM conf.BurstLimit.toNat (le_of_eq hcast)
    rw [hcast] at hw
    have hw0 : (run lim0 (List.replicate conf.BurstLimit.toNat 0)).waitTime = 0 := by
      rw [hw]; ring
    have hI : Inv (run lim0 (List.replicate conf.BurstLimit.toNat 0)) :=
      run_inv (New_inv hNew hR)
        (fun d hd => by rw [List.eq_of_mem_replicate hd]; exact isElapsed_zero)
    obtain ⟨c1, c2, c3⟩ := run_consts lim0 (List.replicate conf.BurstLimit.toNat 0)
    exact ⟨hI, hw0, step _ hI c1 c2 c3 hw0⟩
  | succ k ih =>
    obtain ⟨hI, _, _, _, hnext⟩ := ih
    rw [List.replicate_succ', ← List.append_assoc, run_snoc]
    have hI2 := limit_inv hI hFel
    obtain ⟨c1, c2, c3⟩ := run_consts lim0
      (List.replicate conf.BurstLimit.toNat 0 ++ List.replicate k conf.FillPeriod)
    obtain ⟨k1, k2, k3⟩ := limit_consts
      (run lim0 (List.replicate conf.BurstLimit.toNat 0 ++ List.replicate k conf.FillPeriod))
      conf.FillPeriod
    exact ⟨hI2, hnext, step _ hI2 (k1.trans c1) (k2.trans c2) (k3.trans c3) hnext⟩

/-- The accumulator after `k` back-to-back calls, as long as none of them
reaches `maxWaitTime`. -/
theorem backToBack_waitTime {conf : LimiterConfig} {now : Int} {lim0 : Limiter}
    (hNew : New conf now = Except.ok lim0) (hR : Representable conf)
    (k : Nat) (hk : (k : Int) ≤ conf.BurstLimit + conf.MaxWaitCount - 1) :
    (run lim0 (List.replicate k 0)).waitTime
      = -(conf.FillPeriod * conf.BurstLimit) + conf.FillPeriod * k := by
  obtain ⟨e1, e2, e3, e4, _, hFB, hFM, hS⟩ := New_exact hNew hR
  obtain ⟨_, hF, _, _⟩ := New_ok hNew
  induction k with
  | zero => simp [run, e4]
  | succ k ih =>
    have hk2 : (k : Int) + 1 ≤ conf.BurstLimit + conf.MaxWaitCount - 1 := by
      push_cast at hk; exact hk
    have ihk := ih (by omega)
    rw [List.replicate_succ', run_snoc]
    have hI : Inv (run lim0 (List.replicate k 0)) :=
      run_inv (New_inv hNew hR)
        (fun d hd => by rw [List.eq_of_mem_replicate hd]; exact isElapsed_zero)
    obtain ⟨c1, c2, c3⟩ := run_consts lim0 (List.replicate k 0)
    have hmul : conf.FillPeriod * ((k : Int) + 2)
        ≤ conf.FillPeriod * (conf.BurstLimit + conf.MaxWaitCount) :=
      mul_le_mul_of_nonneg_left (by omega) (le_of_lt hF)
    have hk0 : 0 ≤ conf.FillPeriod * (k : Int) :=
      mul_nonneg (le_of_lt hF) (Int.ofNat_nonneg k)
    rw [mul_add, mul_add] at hmul
    have hadm : (limit (run lim0 (List.replicate k 0)) 0).err = none := by
      apply limit_admits_of_inv hI isElapsed_zero
      · rw [ihk]; unfold minDuration; omega
      · right; rw [ihk, c3, e3]; omega
    rcases limit_of_inv hI isElapsed_zero with ⟨hrej, _⟩ | ⟨_, _, hs, _⟩
    · rw [hrej] at hadm; simp at hadm
    · rw [hs]
      show max ((run lim0 (List.replicate k 0)).waitTime - 0)
          (run lim0 (List.replicate k 0)).minWaitTime
          + (run lim0 (List.replicate k 0)).fillPeriod = _
      rw [ihk, c1, c2, e1, e2, sub_zero, max_eq_left (by omega)]
      push_cast
      ring

/-- A call whose candidate is neither below `minWaitTime` nor below
`maxWaitTime` is rejected and changes nothing. -/
theorem limit_rejects_of_inv {s : Limiter} {dt : Int} (hI : Inv s) (hdt : IsElapsed dt)
    (h1 : s.minWaitTime ≤ s.waitTime - dt) (h2 : s.maxWaitTime ≤ s.waitTime - dt) :
    (limit s dt).err = some Error.ErrBackoff ∧ (limit s dt).state = s := by
  obtain ⟨i1, i2, i3, i4, i5, i6, i7⟩ := hI
  obtain ⟨d1, d2⟩ := hdt
  unfold maxDuration at i2 d2
  have hsub : dsub s.waitTime dt = s.waitTime - dt := by
    unfold dsub wrap64; omega
  have g1 : ¬ dsub s.waitTime dt < s.minWaitTime := by rw [hsub]; omega
  have g2 : dsub s.waitTime dt ≥ s.maxWaitTime := by rw [hsub]; omega
  rw [limit_rejected g1 g2]
  exact ⟨rfl, rfl⟩

/-- With `MaxWaitCount = 0` and `BurstLimit ≥ 2`, the last of the `BurstLimit`
back-to-back calls is rejected and the accumulator is left at `-FillPeriod`;
every further call arriving one `fillPeriod` after the previous one is
admitted, returns `-FillPeriod` and leaves the accumulator at `-FillPeriod`. -/
theorem steady_waitTime_burstOnly {conf : LimiterConfig} {now : Int} {lim0 : Limiter}
    (hNew : New conf now = Except.ok lim0) (hR : Representable conf)
    (hM0 : conf.MaxWaitCount = 0) (hB : 2 ≤ conf.BurstLimit) (k : Nat) :
    Inv (run lim0 (List.replicate conf.BurstLimit.toNat 0
          ++ List.replicate k conf.FillPeriod)) ∧
    (run lim0 (List.replicate conf.BurstLimit.toNat 0
          ++ List.replicate k conf.FillPeriod)).waitTime = -conf.FillPeriod ∧
    (limit (run lim0 (List.replicate conf.BurstLimit.toNat 0
          ++ List.replicate k conf.FillPeriod)) conf.FillPeriod).err = none ∧
    (limit (run lim0 (List.replicate conf.BurstLimit.toNat 0
          ++ List.replicate k conf.FillPeriod)) conf.FillPeriod).wait = -conf.FillPeriod ∧
    (limit (run lim0 (List.replicate conf.BurstLimit.toNat 0
          ++ List.replicate k conf.FillPeriod)) conf.FillPeriod).state.waitTime
      = -conf.FillPeriod := by
  obtain ⟨e1, e2, e3, e4, _, hFB, hFM, hS⟩ := New_exact hNew hR
  obtain ⟨hB0, hF, _, _⟩ := New_ok hNew
  have hFM0 : conf.FillPeriod * conf.MaxWaitCount = 0 := by rw [hM0, mul_zero]
  have hFel : IsElapsed conf.FillPeriod := by
    have := hR.2.1
    unfold IsInt64 at this
    exact ⟨le_of_lt hF, this.2⟩
  have hmulB : conf.FillPeriod * 2 ≤ conf.FillPeriod * conf.BurstLimit :=
    mul_le_mul_of_nonneg_left hB (le_of_lt hF)
  have step : ∀ s : Limiter, Inv s → s.fillPeriod = lim0.fillPeriod →
      s.minWaitTime = lim0.minWaitTime → s.maxWaitTime = lim0.maxWaitTime →
      s.waitTime = -conf.FillPeriod →
      (limit s conf.FillPeriod).err = none ∧
      (limit s conf.FillPeriod).wait = -conf.FillPeriod ∧
      (limit s conf.FillPeriod).state.waitTime = -conf.FillPeriod := by
    intro s hI c1 c2 c3 hw
    have hadm : (limit s conf.FillPeriod).err = none := by
      apply limit_admits_of_inv hI hFel
      · rw [hw]; unfold minDuration; omega
      · right; rw [hw, c3, e3]; omega
    rcases limit_of_inv hI hFel with ⟨hrej, _⟩ | ⟨_, hwait, hs, _⟩
    · rw [hrej] at hadm; simp at hadm
    · have hval : max (s.waitTime - conf.FillPeriod) s.minWaitTime + s.fillPeriod
          = -conf.FillPeriod := by
        rw [hw, c1, c2, e1, e2, max_eq_left (by omega)]; omega
      refine ⟨hadm, by rw [hwait, hval], ?_⟩
      rw [hs]
      exact hval
  induction k with
  | zero =>
    simp only [List.replicate_zero, List.append_nil]
    have hcast : (((conf.BurstLimit - 1).toNat : Nat) : Int) = conf.BurstLimit - 1 :=
      Int.toNat_of_nonneg (by omega)
    have hsucc : conf.BurstLimit.toNat = (conf.BurstLimit - 1).toNat + 1 := by omega
    have hw := backToBack_waitTime hNew hR (conf.BurstLimit - 1).toNat
      (by rw [hcast, hM0]; omega)
    rw [hcast] at hw
    have hw1 : (run lim0 (List.replicate (conf.BurstLimit - 1).toNat 0)).waitTime
        = -conf.FillPeriod := by
      rw [hw]; ring
    have hI1 : Inv (run lim0 (List.replicate (conf.BurstLimit - 1).toNat 0)) :=
      run_inv (New_inv hNew hR)
        (fun d hd => by rw [List.eq_of_mem_replicate hd]; exact isElapsed_zero)
    obtain ⟨d1, d2, d3⟩ := run_consts lim0 (List.replicate (conf.BurstLimit - 1).toNat 0)
    have hrej := limit_rejects_of_inv hI1 isElapsed_zero
      (by rw [hw1, d2, e2]; omega) (by rw [hw1, d3, e3]; omega)
    have hrun : run lim0 (List.replicate conf.BurstLimit.toNat 0)
        = run lim0 (List.replicate (conf.BurstLimit - 1).toNat 0) := by
      rw [hsucc, List.replicate_succ', run_snoc, hrej.2]
    rw [hrun]
    exact ⟨hI1, hw1, step _ hI1 d1 d2 d3 hw1⟩
  | succ k ih =>
    obtain ⟨hI, _, _, _, hnext⟩ := ih
    rw [List.replicate_succ', ← List.append_assoc, run_snoc]
    have hI2 := limit_inv hI hFel
    obtain ⟨c1, c2, c3⟩ := run_consts lim0
      (List.replicate conf.BurstLimit.toNat 0 ++ List.replicate k conf.FillPeriod)
    obtain ⟨k1, k2, k3⟩ := limit_consts
      (run lim0 (List.replicate conf.BurstLimit.toNat 0 ++ List.replicate k conf.FillPeriod))
      conf.FillPeriod
    exact ⟨hI2, hnext, step _ hI2 (k1.trans c1) (k2.trans c2) (k3.trans c3) hnext⟩

/-- Counterexample to C8.  With `BurstLimit = 0`, `FillPeriod = 10`,
`MaxWaitCount = 2` the first call arriving one period after `New` is admitted
but returns a wait of 10.  With `BurstLimit = 1`, `MaxWaitCount = 0` the second
call of the steady series is rejected.  With `BurstLimit = 1`,
`FillPeriod = 2^62`, `MaxWaitCount = 3` (`maxWaitTime` overflows to `-2^63`) the
second call of the steady series is rejected as well. -/
theorem steady_state_counterexample :
    (New ⟨0, 10, 2⟩ 0 = Except.ok ⟨10, 0, 10, 0, 0⟩ ∧
      (limit (run ⟨10, 0, 10, 0, 0⟩ (List.replicate 0 0)) 10).wait = 10) ∧
    (New ⟨1, 10, 0⟩ 0 = Except.ok ⟨10, -10, -10, -10, 0⟩ ∧
      (limit (run ⟨10, -10, -10, -10, 0⟩ (List.replicate 1 0 ++ [10])) 10).err
        = some Error.ErrBackoff) ∧
    (New ⟨1, 2 ^ 62, 3⟩ 0 = Except.ok ⟨2 ^ 62, -(2 ^ 62), -(2 ^ 63), -(2 ^ 62), 0⟩ ∧
      (limit (run ⟨2 ^ 62, -(2 ^ 62), -(2 ^ 63), -(2 ^ 62), 0⟩
          (List.replicate 1 0 ++ [2 ^ 62])) (2 ^ 62)).err = some Error.ErrBackoff) :=
  ⟨⟨by rfl, by decide⟩, ⟨by rfl, by decide⟩, ⟨by rfl, by decide⟩⟩

/-- C8, amended: for every representable configuration (`int64` fields,
`FillPeriod * (BurstLimit + MaxWaitCount) ≤ 2^63`) accepted by `New` with
`BurstLimit ≥ 1` and `BurstLimit + MaxWaitCount ≥ 2`, after `BurstLimit`
back-to-back calls (zero elapsed time), every call of any further series of
calls each arriving exactly `fillPeriod` after the previous one is admitted and
returns a wait `≤ 0`: exactly 0 when `MaxWaitCount ≥ 1`, exactly `-FillPeriod`
when `MaxWaitCount = 0`.  (`steady_state_excluded` shows that the original fails
for every representable configuration left out.) -/
theorem steady_state (conf : LimiterConfig) (now : Int) (lim0 : Limiter)
    (hNew : New conf now = Except.ok lim0) (hR : Representable conf)
    (hB : 1 ≤ conf.BurstLimit) (hBM : 2 ≤ conf.BurstLimit + conf.MaxWaitCount)
    (k : Nat) :
    (limit (run lim0 (List.replicate conf.BurstLimit.toNat 0
          ++ List.replicate k conf.FillPeriod)) conf.FillPeriod).err = none ∧
    (limit (run lim0 (List.replicate conf.BurstLimit.toNat 0
          ++ List.replicate k conf.FillPeriod)) conf.FillPeriod).wait ≤ 0 ∧
    (1 ≤ conf.MaxWaitCount →
      (limit (run lim0 (List.replicate conf.BurstLimit.toNat 0
          ++ List.replicate k conf.FillPeriod)) conf.FillPeriod).wait = 0) ∧
    (conf.MaxWaitCount = 0 →
      (limit (run lim0 (List.replicate conf.BurstLimit.toNat 0
          ++ List.replicate k conf.FillPeriod)) conf.FillPeriod).wait
        = -conf.FillPeriod) := by
  obtain ⟨_, hF, hM, _⟩ := New_ok hNew
  rcases eq_or_lt_of_le hM with hM0 | hMpos
  · have hM0' : conf.MaxWaitCount = 0 := hM0.symm
    obtain ⟨_, _, h1, h2, _⟩ := steady_waitTime_burstOnly hNew hR hM0' (by omega) k
    exact ⟨h1, by rw [h2]; omega, fun h => by omega, fun _ => h2⟩
  · obtain ⟨_, _, h1, h2, _⟩ := steady_waitTime hNew hR hB (by omega) k
    exact ⟨h1, by rw [h2], fun _ => h2, fun h => by omega⟩

/-- Witness for C8: `BurstLimit = 2`, `FillPeriod = 10`, `MaxWaitCount = 0`;
the fourth call of the steady series is admitted and returns `-10`. -/
theorem steady_state_witness :
    (limit (run ⟨10, -20, -10, -20, 0⟩ (List.replicate 2 0 ++ List.replicate 3 10)) 10).err
      = none ∧
    (limit (run ⟨10, -20, -10, -20, 0⟩ (List.replicate 2 0 ++ List.replicate 3 10)) 10).wait
      = -10 :=
  have h := steady_state ⟨2, 10, 0⟩ 0 ⟨10, -20, -10, -20, 0⟩ (by rfl) (by decide)
    (by decide) (by decide) 3
  ⟨h.1, h.2.2.2 rfl⟩

/-- The configurations left out of the amended C8 are those where the original
fails: with `BurstLimit = 0` the first call of the steady series returns
`FillPeriod > 0`, and with `BurstLimit = 1`, `MaxWaitCount = 0` the second call
of the steady series is rejected. -/
theorem steady_state_excluded {conf : LimiterConfig} {now : Int} {lim0 : Limiter}
    (hNew : New conf now = Except.ok lim0) (hR : Representable conf) :
    (conf.BurstLimit = 0 →
      (limit (run lim0 (List.replicate conf.BurstLimit.toNat 0)) conf.FillPeriod).err
        = none ∧
      (limit (run lim0 (List.replicate conf.BurstLimit.toNat 0)) conf.FillPeriod).wait
        = conf.FillPeriod) ∧
    (conf.BurstLimit = 1 → conf.MaxWaitCount = 0 →
      (limit (run lim0 (List.replicate conf.BurstLimit.toNat 0 ++ [conf.FillPeriod]))
        conf.FillPeriod).err = some Error.ErrBackoff) := by
  obtain ⟨e1, e2, e3, e4, _, hFB, hFM, hS⟩ := New_exact hNew hR
  obtain ⟨_, hF, _, _⟩ := New_ok hNew
  have hI0 : Inv lim0 := New_inv hNew hR
  have hFel : IsElapsed conf.FillPeriod := by
    have := hR.2.1
    unfold IsInt64 at this
    exact ⟨le_of_lt hF, this.2⟩
  have hF63 : conf.FillPeriod ≤ 2 ^ 63 - 1 := hFel.2
  constructor
  · intro hB
    have hnat : conf.BurstLimit.toNat = 0 := by omega
    rw [hnat]
    simp only [List.replicate_zero, run]
    have hFB0 : conf.FillPeriod * conf.BurstLimit = 0 := by rw [hB, mul_zero]
    have hadm : (limit lim0 conf.FillPeriod).err = none := by
      apply limit_admits_of_inv hI0 hFel
      · rw [e4, hFB0]; unfold minDuration; omega
      · left; rw [e4, e2, hFB0]; omega
    refine ⟨hadm, ?_⟩
    rcases limit_of_inv hI0 hFel with ⟨hrej, _⟩ | ⟨_, hwait, _, _⟩
    · rw [hrej] at hadm; simp at hadm
    · rw [hwait, e4, e2, e1, hFB0, max_eq_right (by omega)]
      omega
  · intro hB hM0
    have hnat : conf.BurstLimit.toNat = 1 := by omega
    have hFB1 : conf.FillPeriod * conf.BurstLimit = conf.FillPeriod := by rw [hB, mul_one]
    have hFM0 : conf.FillPeriod * conf.MaxWaitCount = 0 := by rw [hM0, mul_zero]
    rw [hnat]
    have hlist : List.replicate 1 (0 : Int) ++ [conf.FillPeriod] = [0] ++ [conf.FillPeriod] :=
      rfl
    rw [hlist, run_snoc]
    have hrun0 : run lim0 [0] = (limit lim0 0).state := rfl
    rw [hrun0]
    have hrej0 := limit_rejects_of_inv hI0 isElapsed_zero
      (by rw [e4, e2, hFB1]; omega) (by rw [e4, e3, hFB1, hFM0]; omega)
    rw [hrej0.2]
    rcases limit_of_inv hI0 hFel with ⟨hrej, hs⟩ | ⟨_, _, hs, _⟩
    · rw [hs]; exact hrej
    · have hI1 : Inv (limit lim0 conf.FillPeriod).state := limit_inv hI0 hFel
      obtain ⟨k1, k2, k3⟩ := limit_consts lim0 conf.FillPeriod
      have hw1 : (limit lim0 conf.FillPeriod).state.waitTime = 0 := by
        rw [hs]
        show max (lim0.waitTime - conf.FillPeriod) lim0.minWaitTime + lim0.fillPeriod = 0
        rw [e4, e2, e1, hFB1, max_eq_right (by omega)]
        omega
      have g1 : (limit lim0 conf.FillPeriod).state.minWaitTime
          ≤ (limit lim0 conf.FillPeriod).state.waitTime - conf.FillPeriod := by
        rw [hw1, k2, e2, hFB1]; omega
      have g2 : (limit lim0 conf.FillPeriod).state.maxWaitTime
          ≤ (limit lim0 conf.FillPeriod).state.waitTime - conf.FillPeriod := by
        rw [hw1, k3, e3, hFM0]
      exact (limit_rejects_of_inv hI1 hFel g1 g2).1

/-- A call with no elapsed time on a limiter with `minWaitTime = maxWaitTime = 0`
and a non-negative accumulator is rejected. -/
theorem limit_zero_rejected {t : Limiter} (hmin : t.minWaitTime = 0)
    (hmax : t.maxWaitTime = 0) (hw : 0 ≤ t.waitTime) (hw2 : t.waitTime ≤ maxDuration) :
    (limit t 0).err = some Error.ErrBackoff := by
  unfold maxDuration at hw2
  have hs : dsub t.waitTime 0 = t.waitTime := by unfold dsub wrap64; omega
  have h1 : ¬ dsub t.waitTime 0 < t.minWaitTime := by rw [hs, hmin]; omega
  have h2 : dsub t.waitTime 0 ≥ t.maxWaitTime := by rw [hs, hmax]; omega
  rw [limit_rejected h1 h2]

/-- C9: on a limiter built by `New` with `BurstLimit = 0`, `MaxWaitCount = 1`
and any `FillPeriod > 0` (an `int64` value), `maxWaitTime` is 0 and, whatever
the elapsed time of a first call, a second call made with zero elapsed time
after it returns `ErrBackoff`. -/
theorem second_call_rejected (fill dt1 now : Int) (lim0 : Limiter)
    (hfill : IsInt64 fill) (hNew : New ⟨0, fill, 1⟩ now = Except.ok lim0) :
    lim0.maxWaitTime = 0 ∧
    (limit (limit lim0 dt1).state 0).err = some Error.ErrBackoff := by
  obtain ⟨_, hF, _, hl⟩ := New_ok hNew
  simp only at hF
  unfold IsInt64 minDuration maxDuration at hfill
  have hmin : dmul (dneg fill) 0 = 0 := by
    unfold dmul wrap64; simp
  have hmax : dmul fill (dsub 1 1) = 0 := by
    have : dsub 1 1 = 0 := by decide
    rw [this]; unfold dmul wrap64; simp
  simp only [hmin, hmax] at hl
  have e1 : lim0.fillPeriod = fill := by rw [hl]
  have e2 : lim0.minWaitTime = 0 := by rw [hl]
  have e3 : lim0.maxWaitTime = 0 := by rw [hl]
  have e4 : lim0.waitTime = 0 := by rw [hl]
  refine ⟨e3, ?_⟩
  obtain ⟨c1, c2, c3⟩ := limit_consts lim0 dt1
  by_cases h1 : dsub lim0.waitTime dt1 < lim0.minWaitTime
  · have hadm : (limit lim0 dt1).err = none := by rw [limit_clamped h1]
    have hw := (limit_commit_of_admitted hadm).1
    rw [max_eq_right (le_of_lt h1), e1, e2] at hw
    have hadd : dadd 0 fill = fill := by unfold dadd wrap64; omega
    rw [hadd] at hw
    apply limit_zero_rejected (c2.trans e2) (c3.trans e3)
    · rw [hw]; omega
    · rw [hw]; unfold maxDuration; omega
  · have h2 : dsub lim0.waitTime dt1 ≥ lim0.maxWaitTime := by
      rw [e3]; rw [e2] at h1; omega
    rw [limit_rejected h1 h2]
    apply limit_zero_rejected e2 e3
    · rw [e4]
    · rw [e4]; decide

/-- Witness for C9: `FillPeriod = 10` and a first call after 7ns. -/
theorem second_call_rejected_witness :
    (limit (limit ⟨10, 0, 0, 0, 0⟩ 7).state 0).err = some Error.ErrBackoff :=
  (second_call_rejected 10 7 0 ⟨10, 0, 0, 0, 0⟩ (by decide) (by rfl)).2

/-- On a limiter satisfying the invariant, the commit of an admitted call stays
in the range of `int64`. -/
theorem commit_fits_of_inv {s : Limiter} {dt : Int} (hI : Inv s)
    (hadm : (limit s dt).err = none) :
    IsInt64 (max (dsub s.waitTime dt) s.minWaitTime + s.fillPeriod) := by
  obtain ⟨i1, i2, i3, i4, i5, i6, i7⟩ := hI
  unfold maxDuration at i2
  unfold IsInt64 minDuration maxDuration
  by_cases h1 : dsub s.waitTime dt < s.minWaitTime
  · rw [max_eq_right (le_of_lt h1)]
    constructor <;> omega
  · by_cases h2 : dsub s.waitTime dt ≥ s.maxWaitTime
    · rw [limit_rejected h1 h2] at hadm; simp at hadm
    · rw [max_eq_left (not_lt.mp h1)]
      constructor <;> omega

/-- Counterexample to C10: `BurstLimit = 0`, `FillPeriod = 2^62 + 1`,
`MaxWaitCount = 2`.  After a first call the limiter has
`waitTime = 2^62 + 1 ≥ minWaitTime = 0`; a call 1ns later is admitted, its commit
`2^62 + (2^62 + 1)` overflows, and it returns `-2^63 + 1`, far below
`minWaitTime + fillPeriod = 2^62 + 1`. -/
theorem limit_wait_floor_counterexample :
    New ⟨0, 2 ^ 62 + 1, 2⟩ 0 = Except.ok ⟨2 ^ 62 + 1, 0, 2 ^ 62 + 1, 0, 0⟩ ∧
    (limit ⟨2 ^ 62 + 1, 0, 2 ^ 62 + 1, 0, 0⟩ 0).state
      = ⟨2 ^ 62 + 1, 0, 2 ^ 62 + 1, 2 ^ 62 + 1, 0⟩ ∧
    (limit ⟨2 ^ 62 + 1, 0, 2 ^ 62 + 1, 2 ^ 62 + 1, 0⟩ 1).err = none ∧
    (limit ⟨2 ^ 62 + 1, 0, 2 ^ 62 + 1, 2 ^ 62 + 1, 0⟩ 1).wait = -(2 ^ 63) + 1 ∧
    ¬ ((0 : Int) + (2 ^ 62 + 1) ≤ (limit ⟨2 ^ 62 + 1, 0, 2 ^ 62 + 1, 2 ^ 62 + 1, 0⟩ 1).wait) :=
  ⟨by rfl, by decide, by decide, by decide, by decide⟩

/-- C10, amended: for every limiter state and every elapsed time, however
large, an admitted call whose commit `candidate + fillPeriod` does not leave
the range of `int64` returns a wait `≥ minWaitTime + fillPeriod`.  (By
`commit_fits_of_inv` the commit stays in range on every limiter built from a
representable configuration.) -/
theorem limit_wait_floor (lim : Limiter) (dt : Int)
    (hadm : (limit lim dt).err = none)
    (hfit : IsInt64 (max (dsub lim.waitTime dt) lim.minWaitTime + lim.fillPeriod)) :
    lim.minWaitTime + lim.fillPeriod ≤ (limit lim dt).wait := by
  obtain ⟨k1, _, k3⟩ := limit_commit_of_admitted hadm
  rw [k3, k1]
  unfold dadd
  rw [wrap64_of_isInt64 hfit]
  have := le_max_right (dsub lim.waitTime dt) lim.minWaitTime
  omega

/-- Witness for C10: a limiter with two periods of credit, idle for 10^12 ns;
the call returns `minWaitTime + fillPeriod = -10`. -/
theorem limit_wait_floor_witness :
    (limit ⟨10, -20, 20, 5, 0⟩ 1000000000000).err = none ∧
    (-20 : Int) + 10 ≤ (limit ⟨10, -20, 20, 5, 0⟩ 1000000000000).wait :=
  ⟨by decide, limit_wait_floor ⟨10, -20, 20, 5, 0⟩ 1000000000000 (by decide) (by decide)⟩

/-! ## Sign of the returned wait, and `MaxWaitCount = 0` -/

/-- Counterexample to C11.  With `BurstLimit = 2`, `FillPeriod = 10`,
`MaxWaitCount = 1` the first call, made with no elapsed time, is admitted and
returns `-10`.  With `BurstLimit = 0`, `FillPeriod = 2^62 + 1`,
`MaxWaitCount = 2` the commit of a second call 1ns after the first overflows
and the call returns `-2^63 + 1`. -/
theorem wait_nonneg_counterexample :
    (New ⟨2, 10, 1⟩ 0 = Except.ok ⟨10, -20, 0, -20, 0⟩ ∧
      (limit ⟨10, -20, 0, -20, 0⟩ 0).err = none ∧
      (limit ⟨10, -20, 0, -20, 0⟩ 0).wait = -10) ∧
    (New ⟨0, 2 ^ 62 + 1, 2⟩ 0 = Except.ok ⟨2 ^ 62 + 1, 0, 2 ^ 62 + 1, 0, 0⟩ ∧
      (limit (run ⟨2 ^ 62 + 1, 0, 2 ^ 62 + 1, 0, 0⟩ [0]) 1).err = none ∧
      (limit (run ⟨2 ^ 62 + 1, 0, 2 ^ 62 + 1, 0, 0⟩ [0]) 1).wait = -(2 ^ 63) + 1) :=
  ⟨⟨by rfl, by decide, by decide⟩, ⟨by rfl, by decide, by decide⟩⟩

/-- C11, amended: on a limiter built by `New` from a representable
configuration (`int64` fields, `FillPeriod * (BurstLimit + MaxWaitCount) ≤ 2^63`),
after any series of calls with elapsed times in `[0, maxDuration]`, the
duration returned by an admitted call is at least
`minWaitTime + fillPeriod = FillPeriod - FillPeriod * BurstLimit`; it is
non-negative whenever `BurstLimit ≤ 1`. -/
theorem wait_lower_bound (conf : LimiterConfig) (now : Int) (lim0 : Limiter)
    (dts : List Int) (dt : Int)
    (hNew : New conf now = Except.ok lim0) (hR : Representable conf)
    (hdts : ∀ d ∈ dts, IsElapsed d) (hdt : IsElapsed dt)
    (hadm : (limit (run lim0 dts) dt).err = none) :
    lim0.minWaitTime + lim0.fillPeriod
      = conf.FillPeriod - conf.FillPeriod * conf.BurstLimit ∧
    lim0.minWaitTime + lim0.fillPeriod ≤ (limit (run lim0 dts) dt).wait ∧
    (conf.BurstLimit ≤ 1 → 0 ≤ (limit (run lim0 dts) dt).wait) := by
  have hI : Inv (run lim0 dts) := run_inv (New_inv hNew hR) hdts
  obtain ⟨c1, c2, _⟩ := run_consts lim0 dts
  obtain ⟨e1, e2, _, _, _, hFB, _, _⟩ := New_exact hNew hR
  obtain ⟨_, hF, _, _⟩ := New_ok hNew
  have hsum : lim0.minWaitTime + lim0.fillPeriod
      = conf.FillPeriod - conf.FillPeriod * conf.BurstLimit := by
    rw [e1, e2]; ring
  rcases limit_of_inv hI hdt with ⟨hrej, _⟩ | ⟨_, hwait, _, _⟩
  · rw [hrej] at hadm; simp at hadm
  · have hmax := le_max_right ((run lim0 dts).waitTime - dt) (run lim0 dts).minWaitTime
    rw [c1, c2] at hwait
    rw [c2] at hmax
    refine ⟨hsum, by rw [hwait]; omega, ?_⟩
    intro hB
    have hmul : conf.FillPeriod * conf.BurstLimit ≤ conf.FillPeriod * 1 :=
      mul_le_mul_of_nonneg_left hB (le_of_lt hF)
    rw [mul_one] at hmul
    rw [hwait]
    omega

/-- Witness for C11: `BurstLimit = 1`, `FillPeriod = 10`, `MaxWaitCount = 3`,
calls after 0ns, 0ns and 4ns; the third returns 6. -/
theorem wait_lower_bound_witness :
    (limit (run ⟨10, -10, 20, -10, 0⟩ [0, 0]) 4).err = none ∧
    0 ≤ (limit (run ⟨10, -10, 20, -10, 0⟩ [0, 0]) 4).wait :=
  ⟨by decide,
    (wait_lower_bound ⟨1, 10, 3⟩ 0 ⟨10, -10, 20, -10, 0⟩ [0, 0] 4 (by rfl) (by decide)
      (by decide) (by decide) (by decide)).2.2 (by decide)⟩

/-- Counterexample to C12.  On the limiter built from `BurstLimit = 0`,
`FillPeriod = 10`, `MaxWaitCount = 0` (`maxWaitTime = -10`), a first call 1ns
after `New` is admitted and a second call 1ns later returns `ErrBackoff`; on the
limiter built from `BurstLimit = 1` the very first call, made with no elapsed
time, returns `ErrBackoff`. -/
theorem maxWaitCount_zero_rejects :
    New ⟨0, 10, 0⟩ 0 = Except.ok ⟨10, 0, -10, 0, 0⟩ ∧
    (limit ⟨10, 0, -10, 0, 0⟩ 1).err = none ∧
    (limit (run ⟨10, 0, -10, 0, 0⟩ [1]) 1).err = some Error.ErrBackoff ∧
    New ⟨1, 10, 0⟩ 0 = Except.ok ⟨10, -10, -10, -10, 0⟩ ∧
    (limit ⟨10, -10, -10, -10, 0⟩ 0).err = some Error.ErrBackoff :=
  ⟨by rfl, by decide, by decide, by rfl, by decide⟩

/-- C12, amended: `MaxWaitCount = 0` disables waiting, not the cap.  On a
limiter built by `New` from a representable configuration with
`MaxWaitCount = 0`, `maxWaitTime` is `-FillPeriod`; after any series of calls
with elapsed times in `[0, maxDuration]`, `limit` returns `ErrBackoff` exactly
when the candidate `waitTime - dt` (a `time.Duration` subtraction) is neither
below `minWaitTime` nor below `-FillPeriod`; an admitted call returns
`minWaitTime + fillPeriod` (its candidate was clamped) or a negative wait, and
with `BurstLimit ≥ 1` it never returns a positive wait. -/
theorem maxWaitCount_zero (conf : LimiterConfig) (now : Int) (lim0 : Limiter)
    (dts : List Int) (dt : Int)
    (hNew : New conf now = Except.ok lim0) (hR : Representable conf)
    (hM0 : conf.MaxWaitCount = 0)
    (hdts : ∀ d ∈ dts, IsElapsed d) (hdt : IsElapsed dt) :
    lim0.maxWaitTime = -conf.FillPeriod ∧
    ((limit (run lim0 dts) dt).err = some Error.ErrBackoff ↔
      (lim0.minWaitTime ≤ dsub (run lim0 dts).waitTime dt ∧
        -conf.FillPeriod ≤ dsub (run lim0 dts).waitTime dt)) ∧
    ((limit (run lim0 dts) dt).err = none →
      ((limit (run lim0 dts) dt).wait = lim0.minWaitTime + lim0.fillPeriod ∨
        (limit (run lim0 dts) dt).wait < 0) ∧
      (1 ≤ conf.BurstLimit → (limit (run lim0 dts) dt).wait ≤ 0)) := by
  have hI : Inv (run lim0 dts) := run_inv (New_inv hNew hR) hdts
  obtain ⟨c1, c2, c3⟩ := run_consts lim0 dts
  obtain ⟨e1, e2, e3, _, _, hFB, _, _⟩ := New_exact hNew hR
  obtain ⟨_, hF, _, _⟩ := New_ok hNew
  have hmax : lim0.maxWaitTime = -conf.FillPeriod := by
    rw [e3, hM0]; ring
  refine ⟨hmax, ?_, ?_⟩
  · by_cases h1 : dsub (run lim0 dts).waitTime dt < (run lim0 dts).minWaitTime
    · rw [limit_clamped h1]
      rw [c2] at h1
      constructor
      · intro h; simp at h
      · intro h; omega
    · by_cases h2 : dsub (run lim0 dts).waitTime dt ≥ (run lim0 dts).maxWaitTime
      · rw [limit_rejected h1 h2]
        rw [c2] at h1
        rw [c3, hmax] at h2
        exact ⟨fun _ => ⟨by omega, by omega⟩, fun _ => rfl⟩
      · rw [limit_queued h1 h2]
        rw [c3, hmax] at h2
        constructor
        · intro h; simp at h
        · intro h; omega
  · intro hadm
    rcases limit_of_inv hI hdt with ⟨hrej, _⟩ | ⟨_, hwait, _, hc⟩
    · rw [hrej] at hadm; simp at hadm
    · rw [c1, c2] at hwait
      rw [c2, c3, hmax] at hc
      have hcase : (limit (run lim0 dts) dt).wait = lim0.minWaitTime + lim0.fillPeriod ∨
          (limit (run lim0 dts) dt).wait < 0 := by
        rcases le_total ((run lim0 dts).waitTime - dt) lim0.minWaitTime with h | h
        · left; rw [hwait, max_eq_right h]
        · right
          rw [hwait, max_eq_left h, e1]
          rcases hc with hc | hc <;> omega
      refine ⟨hcase, ?_⟩
      intro hB
      have hmul : conf.FillPeriod * 1 ≤ conf.FillPeriod * conf.BurstLimit :=
        mul_le_mul_of_nonneg_left hB (le_of_lt hF)
      rw [mul_one] at hmul
      rcases hcase with h | h
      · rw [h, e1, e2]; omega
      · omega

/-- Witness for C12: `BurstLimit = 1`, `FillPeriod = 10`, `MaxWaitCount = 0`; a
call 5ns after `New` is admitted and returns 0. -/
theorem maxWaitCount_zero_witness :
    (limit (run ⟨10, -10, -10, -10, 0⟩ []) 5).err = none ∧
    (limit (run ⟨10, -10, -10, -10, 0⟩ []) 5).wait ≤ 0 :=
  have h := maxWaitCount_zero ⟨1, 10, 0⟩ 0 ⟨10, -10, -10, -10, 0⟩ [] 5 (by rfl)
    (by decide) rfl (by decide) (by decide)
  ⟨by decide, (h.2.2 (by decide)).2 (by decide)⟩

/-! ## Construction -/

/-- C13: `New` panics exactly when `BurstLimit < 0` or `FillPeriod ≤ 0` or
`MaxWaitCount < 0`; for every other configuration it returns the limiter whose
fields are computed from the three configuration values as given, none of them
clamped or replaced by a default. -/
theorem New_panics_iff (conf : LimiterConfig) (now : Int) :
    ((∃ v : Int, New conf now = Except.error v) ↔
      (conf.BurstLimit < 0 ∨ conf.FillPeriod ≤ 0 ∨ conf.MaxWaitCount < 0)) ∧
    (¬ (conf.BurstLimit < 0 ∨ conf.FillPeriod ≤ 0 ∨ conf.MaxWaitCount < 0) →
      New conf now = Except.ok
        { fillPeriod := conf.FillPeriod
          waitTime := dmul (dneg conf.FillPeriod) conf.BurstLimit
          minWaitTime := dmul (dneg conf.FillPeriod) conf.BurstLimit
          maxWaitTime := dmul conf.FillPeriod (dsub conf.MaxWaitCount 1)
          lastRequest := now }) := by
  unfold New
  split_ifs with h1 h2 h3
  · exact ⟨⟨fun _ => Or.inl h1, fun _ => ⟨_, rfl⟩⟩, fun h => absurd (Or.inl h1) h⟩
  · exact ⟨⟨fun _ => Or.inr (Or.inl h2), fun _ => ⟨_, rfl⟩⟩,
      fun h => absurd (Or.inr (Or.inl h2)) h⟩
  · exact ⟨⟨fun _ => Or.inr (Or.inr h3), fun _ => ⟨_, rfl⟩⟩,
      fun h => absurd (Or.inr (Or.inr h3)) h⟩
  · refine ⟨⟨?_, ?_⟩, fun _ => rfl⟩
    · rintro ⟨v, hv⟩; simp at hv
    · rintro (h | h | h)
      · exact absurd h h1
      · exact absurd h h2
      · exact absurd h h3

/-- C14: the limiter returned by `New` has `fillPeriod = FillPeriod`,
`waitTime = minWaitTime = -FillPeriod * BurstLimit` and
`maxWaitTime = FillPeriod * (MaxWaitCount - 1)`, the products being those of
`time.Duration`; they are the exact integer products whenever these are
`int64` values, and `MaxWaitCount = 0` gives `maxWaitTime = -FillPeriod`. -/
theorem New_fields (conf : LimiterConfig) (now : Int) (lim0 : Limiter)
    (hNew : New conf now = Except.ok lim0) :
    lim0.fillPeriod = conf.FillPeriod ∧
    lim0.waitTime = lim0.minWaitTime ∧
    lim0.minWaitTime = dmul (dneg conf.FillPeriod) conf.BurstLimit ∧
    lim0.maxWaitTime = dmul conf.FillPeriod (dsub conf.MaxWaitCount 1) ∧
    lim0.lastRequest = now ∧
    (IsInt64 conf.FillPeriod → IsInt64 (-(conf.FillPeriod * conf.BurstLimit)) →
      lim0.minWaitTime = -(conf.FillPeriod * conf.BurstLimit)) ∧
    (IsInt64 conf.MaxWaitCount → IsInt64 (conf.FillPeriod * (conf.MaxWaitCount - 1)) →
      lim0.maxWaitTime = conf.FillPeriod * (conf.MaxWaitCount - 1)) ∧
    (IsInt64 conf.FillPeriod → conf.MaxWaitCount = 0 →
      lim0.maxWaitTime = -conf.FillPeriod) := by
  obtain ⟨hB, hF, hM, rfl⟩ := New_ok hNew
  refine ⟨rfl, rfl, rfl, rfl, rfl, ?_, ?_, ?_⟩
  · intro rF rP
    show dmul (dneg conf.FillPeriod) conf.BurstLimit = _
    have e1 : dneg conf.FillPeriod = -conf.FillPeriod := by
      unfold IsInt64 minDuration maxDuration at rF
      unfold dneg wrap64; omega
    have e3 : -conf.FillPeriod * conf.BurstLimit = -(conf.FillPeriod * conf.BurstLimit) := by
      ring
    rw [e1]; unfold dmul; rw [e3]
    exact wrap64_of_isInt64 rP
  · intro rM rP
    show dmul conf.FillPeriod (dsub conf.MaxWaitCount 1) = _
    have e2 : dsub conf.MaxWaitCount 1 = conf.MaxWaitCount - 1 := by
      unfold IsInt64 minDuration maxDuration at rM
      unfold dsub wrap64; omega
    rw [e2]; unfold dmul
    exact wrap64_of_isInt64 rP
  · intro rF hM0
    show dmul conf.FillPeriod (dsub conf.MaxWaitCount 1) = _
    rw [hM0]
    have e2 : dsub 0 1 = -1 := by decide
    rw [e2]
    unfold IsInt64 minDuration maxDuration at rF
    unfold dmul wrap64
    rw [mul_neg_one]
    omega

/-- Witness for C14: `BurstLimit = 3`, `FillPeriod = 10`, `MaxWaitCount = 0`. -/
theorem New_fields_witness :
    (⟨10, -30, -10, -30, 7⟩ : Limiter).minWaitTime = -((10 : Int) * 3) ∧
    (⟨10, -30, -10, -30, 7⟩ : Limiter).maxWaitTime = -(10 : Int) :=
  have h := New_fields ⟨3, 10, 0⟩ 7 ⟨10, -30, -10, -30, 7⟩ (by rfl)
  ⟨h.2.2.2.2.2.1 (by decide) (by decide), h.2.2.2.2.2.2.2 (by decide) rfl⟩

/-- Counterexample to C15: `BurstLimit = 3`, `FillPeriod = 2^62`,
`MaxWaitCount = 1` is accepted by `New`, and `-FillPeriod * BurstLimit` wraps
around to `minWaitTime = 2^62 > 0`. -/
theorem minWaitTime_nonpos_counterexample :
    New ⟨3, 2 ^ 62, 1⟩ 0 = Except.ok ⟨2 ^ 62, 2 ^ 62, 0, 2 ^ 62, 0⟩ ∧
    ¬ ((⟨2 ^ 62, 2 ^ 62, 0, 2 ^ 62, 0⟩ : Limiter).minWaitTime ≤ 0) :=
  ⟨by rfl, by decide⟩

/-- C15, amended: for every configuration accepted by `New` whose product
`FillPeriod * BurstLimit` is at most `2^63` (so that its negation is an `int64`
value), the resulting `minWaitTime` is `-(FillPeriod * BurstLimit)`, which
is `≤ 0`. -/
theorem minWaitTime_nonpos (conf : LimiterConfig) (now : Int) (lim0 : Limiter)
    (hNew : New conf now = Except.ok lim0)
    (hfit : conf.FillPeriod * conf.BurstLimit ≤ 2 ^ 63) :
    lim0.minWaitTime = -(conf.FillPeriod * conf.BurstLimit) ∧ lim0.minWaitTime ≤ 0 := by
  obtain ⟨hB, hF, hM, rfl⟩ := New_ok hNew
  have hFB : 0 ≤ conf.FillPeriod * conf.BurstLimit := mul_nonneg (le_of_lt hF) hB
  have key : dmul (dneg conf.FillPeriod) conf.BurstLimit
      = -(conf.FillPeriod * conf.BurstLimit) := by
    rcases eq_or_lt_of_le hB with h0 | hpos
    · rw [← h0]; unfold dmul wrap64; simp
    · have h1 : conf.FillPeriod * 1 ≤ conf.FillPeriod * conf.BurstLimit :=
        mul_le_mul_of_nonneg_left (by omega) (le_of_lt hF)
      rw [mul_one] at h1
      have e1 : dneg conf.FillPeriod = -conf.FillPeriod := by
        unfold dneg wrap64; omega
      have e3 : -conf.FillPeriod * conf.BurstLimit
          = -(conf.FillPeriod * conf.BurstLimit) := by ring
      rw [e1]; unfold dmul; rw [e3]; unfold wrap64; omega
  show dmul (dneg conf.FillPeriod) conf.BurstLimit = _ ∧
    dmul (dneg conf.FillPeriod) conf.BurstLimit ≤ 0
  rw [key]
  exact ⟨rfl, by omega⟩

/-- Witness for C15: `BurstLimit = 3`, `FillPeriod = 10`. -/
theorem minWaitTime_nonpos_witness :
    (⟨10, -30, 20, -30, 0⟩ : Limiter).minWaitTime ≤ 0 :=
  (minWaitTime_nonpos ⟨3, 10, 3⟩ 0 ⟨10, -30, 20, -30, 0⟩ (by rfl) (by decide)).2

/-! ## The exported call -/

/-- C16: `Limit` returns `ErrBackoff` exactly when `limit` does, and then hands
0 to `time.Sleep`, which does not block; otherwise it returns `nil` after
handing to `time.Sleep` exactly the duration `limit` returned, and `time.Sleep`
blocks only when that duration is `> 0`.  The limiter is left as `limit` left
it. -/
theorem Limit_err_and_sleep (lim : Limiter) (dt : Int) :
    ((Limit lim dt).err = some Error.ErrBackoff ↔
      (limit lim dt).err = some Error.ErrBackoff) ∧
    ((Limit lim dt).err = some Error.ErrBackoff →
      (Limit lim dt).slept = 0 ∧ sleepTime (Limit lim dt).slept = 0) ∧
    ((Limit lim dt).err ≠ some Error.ErrBackoff →
      (Limit lim dt).err = none ∧ (Limit lim dt).slept = (limit lim dt).wait) ∧
    (0 < sleepTime (Limit lim dt).slept ↔ 0 < (Limit lim dt).slept) ∧
    ((Limit lim dt).slept ≤ 0 → sleepTime (Limit lim dt).slept = 0) ∧
    (Limit lim dt).state = (limit lim dt).state := by
  have herr : (Limit lim dt).err = (limit lim dt).err := rfl
  have hslept : (Limit lim dt).slept = (limit lim dt).wait := rfl
  have hsl : ∀ d : Int, (0 < sleepTime d ↔ 0 < d) ∧ (d ≤ 0 → sleepTime d = 0) := by
    intro d
    unfold sleepTime
    split_ifs with h
    · exact ⟨⟨fun h0 => absurd h0 (lt_irrefl 0), fun h0 => by omega⟩, fun _ => rfl⟩
    · exact ⟨⟨fun _ => by omega, fun _ => by omega⟩, fun h0 => absurd h0 h⟩
  refine ⟨by rw [herr], ?_, ?_, (hsl _).1, (hsl _).2, rfl⟩
  · intro h
    rw [herr] at h
    rw [hslept]
    by_cases h1 : dsub lim.waitTime dt < lim.minWaitTime
    · rw [limit_clamped h1] at h; simp at h
    · by_cases h2 : dsub lim.waitTime dt ≥ lim.maxWaitTime
      · rw [limit_rejected h1 h2]; exact ⟨rfl, rfl⟩
      · rw [limit_queued h1 h2] at h; simp at h
  · intro h
    rw [herr] at h ⊢
    refine ⟨?_, hslept⟩
    by_cases h1 : dsub lim.waitTime dt < lim.minWaitTime
    · rw [limit_clamped h1]
    · by_cases h2 : dsub lim.waitTime dt ≥ lim.maxWaitTime
      · rw [limit_rejected h1 h2] at h; simp at h
      · rw [limit_queued h1 h2]

/-! ## The order of clamp and reject check -/

/-- The rejected outcome, read off the two comparisons of the source. -/
theorem limit_err_backoff_iff (lim : Limiter) (dt : Int) :
    (limit lim dt).err = some Error.ErrBackoff ↔
      (lim.minWaitTime ≤ dsub lim.waitTime dt ∧ dsub lim.waitTime dt ≥ lim.maxWaitTime) := by
  by_cases h1 : dsub lim.waitTime dt < lim.minWaitTime
  · rw [limit_clamped h1]
    constructor
    · intro h; simp at h
    · intro h; omega
  · by_cases h2 : dsub lim.waitTime dt ≥ lim.maxWaitTime
    · rw [limit_rejected h1 h2]
      exact ⟨fun _ => ⟨not_lt.mp h1, h2⟩, fun _ => rfl⟩
    · rw [limit_queued h1 h2]
      constructor
      · intro h; simp at h
      · intro h; exact absurd h.2 h2

/-- C18: `limit` rejects exactly when `minWaitTime ≤ waitTime - dt` and
`waitTime - dt ≥ maxWaitTime`; whenever `waitTime - dt < minWaitTime` the call
is admitted, whatever `maxWaitTime` is, and returns `minWaitTime + fillPeriod`.
The subtraction and the addition are those of `time.Duration`, and the same
holds with the exact integers whenever these are `int64` values.  On a limiter
built from a representable configuration, `minWaitTime ≥ maxWaitTime` holds
exactly when `BurstLimit + MaxWaitCount ≤ 1`. -/
theorem limit_reject_unclamped (lim : Limiter) (dt : Int)
    (conf : LimiterConfig) (now : Int) (lim0 : Limiter) :
    ((limit lim dt).err = some Error.ErrBackoff ↔
      (lim.minWaitTime ≤ dsub lim.waitTime dt ∧ dsub lim.waitTime dt ≥ lim.maxWaitTime)) ∧
    (dsub lim.waitTime dt < lim.minWaitTime →
      (limit lim dt).err = none ∧
      (limit lim dt).wait = dadd lim.minWaitTime lim.fillPeriod) ∧
    (IsInt64 (lim.waitTime - dt) →
      ((limit lim dt).err = some Error.ErrBackoff ↔
        (lim.minWaitTime ≤ lim.waitTime - dt ∧ lim.waitTime - dt ≥ lim.maxWaitTime))) ∧
    (IsInt64 (lim.waitTime - dt) → IsInt64 (lim.minWaitTime + lim.fillPeriod) →
      lim.waitTime - dt < lim.minWaitTime →
      (limit lim dt).err = none ∧
      (limit lim dt).wait = lim.minWaitTime + lim.fillPeriod) ∧
    (New conf now = Except.ok lim0 → Representable conf →
      (lim0.maxWaitTime ≤ lim0.minWaitTime ↔
        conf.BurstLimit + conf.MaxWaitCount ≤ 1)) := by
  have hclamp : dsub lim.waitTime dt < lim.minWaitTime →
      (limit lim dt).err = none ∧
      (limit lim dt).wait = dadd lim.minWaitTime lim.fillPeriod := by
    intro h1
    rw [limit_clamped h1]
    exact ⟨rfl, rfl⟩
  refine ⟨limit_err_backoff_iff lim dt, hclamp, ?_, ?_, ?_⟩
  · intro hr
    have hs : dsub lim.waitTime dt = lim.waitTime - dt := wrap64_of_isInt64 hr
    have := limit_err_backoff_iff lim dt
    rw [hs] at this
    exact this
  · intro hr hr2 hlt
    have hs : dsub lim.waitTime dt = lim.waitTime - dt := wrap64_of_isInt64 hr
    have ha : dadd lim.minWaitTime lim.fillPeriod = lim.minWaitTime + lim.fillPeriod :=
      wrap64_of_isInt64 hr2
    have := hclamp (by rw [hs]; exact hlt)
    rw [ha] at this
    exact this
  · intro hNew hR
    obtain ⟨_, e2, e3, _, _, hFB, hFM, _⟩ := New_exact hNew hR
    obtain ⟨hB, hF, hM, _⟩ := New_ok hNew
    rw [e2, e3]
    constructor
    · intro h
      by_contra hcon
      have h2 : conf.FillPeriod * 2 ≤ conf.FillPeriod * (conf.BurstLimit + conf.MaxWaitCount) :=
        mul_le_mul_of_nonneg_left (by omega) (le_of_lt hF)
      rw [mul_add] at h2
      omega
    · intro h
      have h1 : conf.FillPeriod * (conf.BurstLimit + conf.MaxWaitCount) ≤ conf.FillPeriod * 1 :=
        mul_le_mul_of_nonneg_left h (le_of_lt hF)
      rw [mul_add, mul_one] at h1
      omega

/-! ## Range and monotonicity of the returned wait -/

/-- The largest wait is reached: after `BurstLimit + MaxWaitCount - 1`
back-to-back calls the accumulator equals `maxWaitTime`, and a call 1ns later
is admitted and returns `maxWaitTime + fillPeriod - 1`. -/
theorem wait_upper_bound_reached {conf : LimiterConfig} {now : Int} {lim0 : Limiter}
    (hNew : New conf now = Except.ok lim0) (hR : Representable conf)
    (h2 : 2 ≤ conf.BurstLimit + conf.MaxWaitCount) :
    (limit (run lim0
      (List.replicate (conf.BurstLimit + conf.MaxWaitCount - 1).toNat 0)) 1).err = none ∧
    (limit (run lim0
      (List.replicate (conf.BurstLimit + conf.MaxWaitCount - 1).toNat 0)) 1).wait
        = lim0.maxWaitTime + lim0.fillPeriod - 1 := by
  obtain ⟨e1, e2, e3, e4, _, hFB, hFM, hS⟩ := New_exact hNew hR
  obtain ⟨_, hF, _, _⟩ := New_ok hNew
  have hcast : (((conf.BurstLimit + conf.MaxWaitCount - 1).toNat : Nat) : Int)
      = conf.BurstLimit + conf.MaxWaitCount - 1 := Int.toNat_of_nonneg (by omega)
  have hw := backToBack_waitTime hNew hR
    (conf.BurstLimit + conf.MaxWaitCount - 1).toNat (le_of_eq hcast)
  rw [hcast] at hw
  have hI : Inv (run lim0
      (List.replicate (conf.BurstLimit + conf.MaxWaitCount - 1).toNat 0)) :=
    run_inv (New_inv hNew hR)
      (fun d hd => by rw [List.eq_of_mem_replicate hd]; exact isElapsed_zero)
  obtain ⟨c1, c2, c3⟩ := run_consts lim0
    (List.replicate (conf.BurstLimit + conf.MaxWaitCount - 1).toNat 0)
  have hwmax : (run lim0
      (List.replicate (conf.BurstLimit + conf.MaxWaitCount - 1).toNat 0)).waitTime
      = conf.FillPeriod * conf.MaxWaitCount - conf.FillPeriod := by
    rw [hw]; ring
  have hmul : conf.FillPeriod * 2 ≤ conf.FillPeriod * (conf.BurstLimit + conf.MaxWaitCount) :=
    mul_le_mul_of_nonneg_left h2 (le_of_lt hF)
  rw [mul_add] at hmul
  have hel : IsElapsed 1 := by decide
  have hadm : (limit (run lim0
      (List.replicate (conf.BurstLimit + conf.MaxWaitCount - 1).toNat 0)) 1).err = none := by
    apply limit_admits_of_inv hI hel
    · rw [hwmax]; unfold minDuration; omega
    · right; rw [hwmax, c3, e3]; omega
  refine ⟨hadm, ?_⟩
  rcases limit_of_inv hI hel with ⟨hrej, _⟩ | ⟨_, hwait, _, _⟩
  · rw [hrej] at hadm; simp at hadm
  · rw [hwait, hwmax, c1, c2, e1, e2, e3, max_eq_left (by omega)]
    ring

/-- Counterexample to C19: `BurstLimit = 0`, `FillPeriod = 2^62 + 1`,
`MaxWaitCount = 2`.  After a first call the limiter has
`minWaitTime = 0 < maxWaitTime = 2^62 + 1` and `waitTime = 2^62 + 1`; a call 1ns
later is admitted, its commit overflows, and the returned wait `-2^63 + 1` is
below `minWaitTime + fillPeriod`. -/
theorem wait_range_counterexample :
    New ⟨0, 2 ^ 62 + 1, 2⟩ 0 = Except.ok ⟨2 ^ 62 + 1, 0, 2 ^ 62 + 1, 0, 0⟩ ∧
    (limit ⟨2 ^ 62 + 1, 0, 2 ^ 62 + 1, 0, 0⟩ 0).state
      = ⟨2 ^ 62 + 1, 0, 2 ^ 62 + 1, 2 ^ 62 + 1, 0⟩ ∧
    (⟨2 ^ 62 + 1, 0, 2 ^ 62 + 1, 2 ^ 62 + 1, 0⟩ : Limiter).minWaitTime
      < (⟨2 ^ 62 + 1, 0, 2 ^ 62 + 1, 2 ^ 62 + 1, 0⟩ : Limiter).maxWaitTime ∧
    (limit ⟨2 ^ 62 + 1, 0, 2 ^ 62 + 1, 2 ^ 62 + 1, 0⟩ 1).err = none ∧
    ¬ ((⟨2 ^ 62 + 1, 0, 2 ^ 62 + 1, 2 ^ 62 + 1, 0⟩ : Limiter).minWaitTime
          + (⟨2 ^ 62 + 1, 0, 2 ^ 62 + 1, 2 ^ 62 + 1, 0⟩ : Limiter).fillPeriod
        ≤ (limit ⟨2 ^ 62 + 1, 0, 2 ^ 62 + 1, 2 ^ 62 + 1, 0⟩ 1).wait) :=
  ⟨by rfl, by decide, by decide, by decide, by decide⟩

/-- C19, amended: for every limiter state with `minWaitTime < maxWaitTime` and
every elapsed time, an admitted call whose commit `candidate + fillPeriod` does
not leave the range of `int64` returns a wait `w` with
`minWaitTime + fillPeriod ≤ w < maxWaitTime + fillPeriod`.  On a limiter built
by `New` from a representable configuration the upper bound is
`FillPeriod * MaxWaitCount`, and when `BurstLimit + MaxWaitCount ≥ 2` the wait
`maxWaitTime + fillPeriod - 1` is returned by a call made 1ns after
`BurstLimit + MaxWaitCount - 1` back-to-back calls. -/
theorem wait_range (lim : Limiter) (dt : Int)
    (conf : LimiterConfig) (now : Int) (lim0 : Limiter) :
    (lim.minWaitTime < lim.maxWaitTime → (limit lim dt).err = none →
      IsInt64 (max (dsub lim.waitTime dt) lim.minWaitTime + lim.fillPeriod) →
      lim.minWaitTime + lim.fillPeriod ≤ (limit lim dt).wait ∧
      (limit lim dt).wait < lim.maxWaitTime + lim.fillPeriod) ∧
    (New conf now = Except.ok lim0 → Representable conf →
      lim0.maxWaitTime + lim0.fillPeriod = conf.FillPeriod * conf.MaxWaitCount ∧
      (2 ≤ conf.BurstLimit + conf.MaxWaitCount →
        (limit (run lim0
          (List.replicate (conf.BurstLimit + conf.MaxWaitCount - 1).toNat 0)) 1).err
            = none ∧
        (limit (run lim0
          (List.replicate (conf.BurstLimit + conf.MaxWaitCount - 1).toNat 0)) 1).wait
            = lim0.maxWaitTime + lim0.fillPeriod - 1)) := by
  constructor
  · intro hlt hadm hfit
    obtain ⟨k1, _, k3⟩ := limit_commit_of_admitted hadm
    rw [k3, k1]
    unfold dadd
    rw [wrap64_of_isInt64 hfit]
    constructor
    · have := le_max_right (dsub lim.waitTime dt) lim.minWaitTime
      omega
    · by_cases h1 : dsub lim.waitTime dt < lim.minWaitTime
      · rw [max_eq_right (le_of_lt h1)]; omega
      · by_cases h2 : dsub lim.waitTime dt ≥ lim.maxWaitTime
        · rw [limit_rejected h1 h2] at hadm; simp at hadm
        · rw [max_eq_left (not_lt.mp h1)]; omega
  · intro hNew hR
    obtain ⟨e1, _, e3, _⟩ := New_exact hNew hR
    exact ⟨by rw [e1, e3]; ring, fun h2 => wait_upper_bound_reached hNew hR h2⟩

/-- Witness for C19: `BurstLimit = 1`, `FillPeriod = 10`, `MaxWaitCount = 3`
(`maxWaitTime = 20`); after three back-to-back calls a call 1ns later returns
29, inside `[0, 30)` and beyond `maxWaitTime`. -/
theorem wait_range_witness :
    ((0 : Int) ≤ (limit (run ⟨10, -10, 20, -10, 0⟩ [0, 0, 0]) 1).wait ∧
      (limit (run ⟨10, -10, 20, -10, 0⟩ [0, 0, 0]) 1).wait < 30) ∧
    (limit (run ⟨10, -10, 20, -10, 0⟩ [0, 0, 0]) 1).wait = 29 :=
  have h := wait_range (run ⟨10, -10, 20, -10, 0⟩ [0, 0, 0]) 1 ⟨1, 10, 3⟩ 0
    ⟨10, -10, 20, -10, 0⟩
  ⟨h.1 (by decide) (by decide) (by decide),
    ((h.2 (by rfl) (by decide)).2 (by decide)).2⟩

/-- Counterexample to C20: on the limiter built from `BurstLimit = 1`,
`FillPeriod = 10`, `MaxWaitCount = 2`, a call with no elapsed time is admitted,
while for the elapsed time `2^63 - 1` the subtraction `-10 - (2^63 - 1)` wraps
around to `2^63 - 9 ≥ maxWaitTime` and the call is rejected. -/
theorem limit_monotone_counterexample :
    New ⟨1, 10, 2⟩ 0 = Except.ok ⟨10, -10, 10, -10, 0⟩ ∧
    (0 : Int) ≤ 0 ∧ (0 : Int) ≤ 2 ^ 63 - 1 ∧
    (limit ⟨10, -10, 10, -10, 0⟩ 0).err = none ∧
    (limit ⟨10, -10, 10, -10, 0⟩ (2 ^ 63 - 1)).err = some Error.ErrBackoff :=
  ⟨by rfl, by decide, by decide, by decide, by decide⟩

/-- C20, amended: for every limiter state with an `int64` `waitTime` and all
`0 ≤ dt1 ≤ dt2` such that `waitTime - dt2` does not leave the range of `int64`,
a call admitted with elapsed time `dt1` is also admitted with elapsed time
`dt2`; and when neither commit `candidate + fillPeriod` leaves the range of
`int64`, the wait returned for `dt2` is `≤` the wait returned for `dt1`. -/
theorem limit_monotone (lim : Limiter) (dt1 dt2 : Int)
    (h0 : 0 ≤ dt1) (h12 : dt1 ≤ dt2)
    (hw : IsInt64 lim.waitTime) (hsub : IsInt64 (lim.waitTime - dt2))
    (hadm : (limit lim dt1).err = none) :
    (limit lim dt2).err = none ∧
    (IsInt64 (max (lim.waitTime - dt1) lim.minWaitTime + lim.fillPeriod) →
      IsInt64 (max (lim.waitTime - dt2) lim.minWaitTime + lim.fillPeriod) →
      (limit lim dt2).wait ≤ (limit lim dt1).wait) := by
  have hsub1 : IsInt64 (lim.waitTime - dt1) := by
    unfold IsInt64 minDuration maxDuration at hw hsub ⊢
    constructor <;> omega
  have hs1 : dsub lim.waitTime dt1 = lim.waitTime - dt1 := wrap64_of_isInt64 hsub1
  have hs2 : dsub lim.waitTime dt2 = lim.waitTime - dt2 := wrap64_of_isInt64 hsub
  have hnr1 : ¬ (lim.minWaitTime ≤ lim.waitTime - dt1 ∧
      lim.waitTime - dt1 ≥ lim.maxWaitTime) := by
    intro hc
    have := (limit_err_backoff_iff lim dt1).mpr (by rw [hs1]; exact hc)
    rw [this] at hadm; simp at hadm
  have hadm2 : (limit lim dt2).err = none := by
    by_cases h1 : dsub lim.waitTime dt2 < lim.minWaitTime
    · rw [limit_clamped h1]
    · by_cases h2 : dsub lim.waitTime dt2 ≥ lim.maxWaitTime
      · exfalso
        rw [hs2] at h1 h2
        apply hnr1
        constructor <;> omega
      · rw [limit_queued h1 h2]
  refine ⟨hadm2, ?_⟩
  intro hf1 hf2
  obtain ⟨a1, _, a3⟩ := limit_commit_of_admitted hadm
  obtain ⟨b1, _, b3⟩ := limit_commit_of_admitted hadm2
  rw [a3, a1, b3, b1, hs1, hs2]
  unfold dadd
  rw [wrap64_of_isInt64 hf1, wrap64_of_isInt64 hf2]
  have hmono : max (lim.waitTime - dt2) lim.minWaitTime
      ≤ max (lim.waitTime - dt1) lim.minWaitTime :=
    max_le_max (by omega) (le_refl _)
  omega

/-- Witness for C20: a debt of 25ns, seen 3ns and 40ns later. -/
theorem limit_monotone_witness :
    (limit ⟨10, -10, 30, 25, 0⟩ 40).err = none ∧
    (limit ⟨10, -10, 30, 25, 0⟩ 40).wait ≤ (limit ⟨10, -10, 30, 25, 0⟩ 3).wait :=
  have h := limit_monotone ⟨10, -10, 30, 25, 0⟩ 3 40 (by decide) (by decide)
    (by decide) (by decide) (by decide)
  ⟨h.1, h.2 (by decide) (by decide)⟩

end Ratelimitx
